import Mathlib
/-!
Verification development for the Blogify backend core
(content lifecycle and engagement-consistency engine).
The definitions below are a shallow embedding of the JavaScript source:
* the Mongoose `Post` and `Comment` schemas with their `pre("save")` /
  `post("save")` hooks (models/Post.js, models/Comment.js);
* the Express route handlers for posts (routes/posts.js) and comments
  (routes/comments.js), restricted to their data-level effect: each handler
  becomes a function from a database state (lists of post and comment
  documents) to `Except ApiErr` of the new state plus the response payload.
JavaScript strings are modelled as `List Char` / `String`; Mongo ObjectIds
and `Date` values as `Nat`.  JavaScript string-splitting and regex
replacement used by the hooks are reproduced with their exact semantics
(including empty segments produced by `split(/\s+/)` at string boundaries).
-/
set_option autoImplicit false
set_option maxRecDepth 100000

namespace Blogify

/-- Whitespace class of the JavaScript regexes `\s` used by the hooks
(ASCII part: space, tab, LF, VT, FF, CR; the source strings are ASCII). -/
def jsIsWs (c : Char) : Bool :=
  c = ' ' || c = '\t' || c = '\n' || c = Char.ofNat 11 || c = Char.ofNat 12 || c = '\r'

/-- Characters kept by `replace(/[^a-zA-Z0-9\s]/g, "")` in the slug hook. -/
def keepSlugChar (c : Char) : Bool :=
  c.isAlpha || c.isDigit || jsIsWs c

/-- Effect of `replace(/\s+/g, "-")`: every maximal run of whitespace becomes
a single hyphen. -/
def collapseWs : List Char → List Char
  | [] => []
  | c :: rest =>
    if jsIsWs c then
      if rest.head?.any jsIsWs then collapseWs rest
      else '-' :: collapseWs rest
    else c :: collapseWs rest

/-- Slug generation from `postSchema.pre("save")`:
`title.toLowerCase().replace(/[^a-zA-Z0-9\s]/g, "").replace(/\s+/g, "-").substring(0, 50)`. -/
def slugOf (title : String) : String :=
  String.mk ((collapseWs ((title.data.map Char.toLower).filter keepSlugChar)).take 50)

/-- Effect of `replace(/<[^>]*>/g, "")` together with the auxiliary value
needed for structural recursion.  For a suffix `l` the pair holds
`(stripTags l, (dropThroughFirstGt l).map stripTags)`: the second component
is the stripped text after skipping through the first `'>'` of `l`, or
`none` when `l` has no `'>'` (in which case a preceding `'<'` has no match
and is kept literally, as the regex then fails to match). -/
def stripTagsAux : List Char → List Char × Option (List Char)
  | [] => ([], none)
  | c :: t =>
    let p := stripTagsAux t
    let stripped :=
      if c = '<' then
        match p.2 with
        | some x => x
        | none => '<' :: p.1
      else c :: p.1
    let afterGt := if c = '>' then some p.1 else p.2
    (stripped, afterGt)

/-- Markup-tag stripping used by the readTime and excerpt computations:
`content.replace(/<[^>]*>/g, "")`. -/
def stripTags (l : List Char) : List Char :=
  (stripTagsAux l).1

/-- JavaScript `String.prototype.split(/\s+/)`: segments between maximal
whitespace runs, including an empty segment for a run touching the start or
the end of the string, and `[""]` for the empty string. -/
def jsSplitWs : List Char → List (List Char)
  | [] => [[]]
  | c :: rest =>
    if jsIsWs c then
      if rest.head?.any jsIsWs then jsSplitWs rest
      else [] :: jsSplitWs rest
    else
      match jsSplitWs rest with
      | [] => [[c]]
      | s :: ss => (c :: s) :: ss

/-- Word count of the readTime hook:
`content.replace(/<[^>]*>/g, "").split(/\s+/).length`. -/
def jsWordCount (content : String) : Nat :=
  (jsSplitWs (stripTags content.data)).length

/-- Read time from `postSchema.pre("save")`:
`Math.ceil(words / wordsPerMinute)` with 200 words per minute. -/
def readTimeOf (content : String) : Nat :=
  (jsWordCount content + 199) / 200

/-- Excerpt generation from `postSchema.pre("save")`:
`content.replace(/<[^>]*>/g, "").substring(0, 150) + "..."`. -/
def excerptOf (content : String) : String :=
  String.mk ((stripTags content.data).take 150) ++ "..."

/-- Post status enum `["Draft", "Published", "Archived"]`. -/
inductive Status where
  | draft
  | published
  | archived
deriving DecidableEq, Repr

/-- Embedded like entry `{user, createdAt}` of the `likes` arrays. -/
structure LikeEntry where
  user : Nat
  createdAt : Nat
deriving DecidableEq, Repr

/-- A `Post` document (models/Post.js).  `slug`, `excerpt`, `publishedAt`,
`deletedAt` style optional fields are `Option`; `none` stands for a missing
(undefined) field.  The mongoose `createdAt`/`updatedAt` timestamps are not
modelled (no handler reads them). -/
structure Post where
  id : Nat
  title : String
  content : String
  excerpt : Option String
  coverImage : String
  author : Nat
  tags : List String
  category : String
  status : Status
  views : Nat
  likes : List LikeEntry
  likesCount : Nat
  commentsCount : Nat
  readTime : Nat
  slug : Option String
  publishedAt : Option Nat
  featured : Bool
  seoTitle : String
  seoDescription : String
deriving DecidableEq, Repr

/-- A `Comment` document (models/Comment.js). -/
structure Comment where
  id : Nat
  comment : String
  post : Nat
  userId : Nat
  parentComment : Option Nat
  replies : List Nat
  likes : List LikeEntry
  likesCount : Nat
  isEdited : Bool
  editedAt : Option Nat
  isDeleted : Bool
  deletedAt : Option Nat
deriving DecidableEq, Repr

/-- Database state: the two collections. -/
structure DB where
  posts : List Post
  comments : List Comment
deriving DecidableEq, Repr

/-- Authenticated actor `req.user` as seen by the handlers: `{id, role}`,
where `admin = true` models `role === "admin"`. -/
structure Actor where
  id : Nat
  admin : Bool
deriving DecidableEq, Repr

/-- Typed domain failures, the spec's taxonomy as produced by the handlers:
404 missing-entity responses are `notFound`, ownership 403s are `forbidden`,
field/constraint 400s are `validationError`, the lifecycle 400s
(`"Cannot comment on unpublished posts"`, `"Cannot edit deleted comment"`,
`"Cannot like deleted comment"`) are `invalidState`, and the 400
`"Invalid parent comment"` is `invalidParent`. -/
inductive ApiErr where
  | notFound
  | forbidden
  | validationError
  | invalidState
  | invalidParent
deriving DecidableEq, Repr

/-- Lookup `Model.findById`: first document with the given id (Mongo `_id` lookup). -/
def findBy {α : Type} (f : α → Nat) (l : List α) (i : Nat) : Option α :=
  l.find? (fun x => decide (f x = i))

/-- Persisting a loaded document: the stored document with this id is
replaced by the saved value (Mongo `_id` is the write key). -/
def replaceBy {α : Type} (f : α → Nat) (l : List α) (i : Nat) (x : α) : List α :=
  l.map (fun q => if f q = i then x else q)

/-- JavaScript `String.prototype.trim`: strip whitespace from both ends. -/
def jsTrim (s : String) : String :=
  String.mk (((s.data.dropWhile jsIsWs).reverse.dropWhile jsIsWs).reverse)

/-- Shared handler prologue: load the addressed post or answer the 404
`"Post not found"`. -/
def withPost {β : Type} (db : DB) (pid : Nat) (k : Post → Except ApiErr β) : Except ApiErr β :=
  match findBy Post.id db.posts pid with
  | none => .error .notFound
  | some p => k p

/-- Shared handler prologue: load the addressed comment or answer the 404
`"Comment not found"`. -/
def withComment {β : Type} (db : DB) (cid : Nat) (k : Comment → Except ApiErr β) :
    Except ApiErr β :=
  match findBy Comment.id db.comments cid with
  | none => .error .notFound
  | some c => k c

/-- JavaScript truthiness of an optional string field (`undefined` and `""`
are falsy, as in `!this.slug` / `!this.excerpt`). -/
def strTruthy : Option String → Bool
  | none => false
  | some s => !(s = "")

/-- Which post paths a save marked as modified (mongoose `isModified`).
Only the paths inspected by the post hooks are tracked. -/
structure PostMods where
  title : Bool := false
  content : Bool := false
  status : Bool := false
  likes : Bool := false
deriving DecidableEq, Repr

/-- Slug step of the first `postSchema.pre("save")` hook:
`if (this.isModified("title") && !this.slug)`. -/
def hookSlug (p : Post) (m : PostMods) : Post :=
  if m.title && !(strTruthy p.slug) then { p with slug := some (slugOf p.title) } else p

/-- Read-time and excerpt step of the first `postSchema.pre("save")` hook:
`if (this.isModified("content"))`. -/
def hookReadTime (p : Post) (m : PostMods) : Post :=
  if m.content then
    let pa := { p with readTime := readTimeOf p.content }
    if strTruthy pa.excerpt then pa else { pa with excerpt := some (excerptOf pa.content) }
  else p

/-- Published-date step of the first `postSchema.pre("save")` hook:
`if (this.isModified("status") && this.status === "Published" && !this.publishedAt)`. -/
def hookPublishedAt (p : Post) (m : PostMods) (now : Nat) : Post :=
  if m.status && decide (p.status = .published) && decide (p.publishedAt = none) then
    { p with publishedAt := some now }
  else p

/-- Second `postSchema.pre("save")` hook: `if (this.isModified("likes"))`
update of `likesCount`. -/
def hookLikesCount (p : Post) (m : PostMods) : Post :=
  if m.likes then { p with likesCount := p.likes.length } else p

/-- The two `postSchema.pre("save")` hooks, in registration order: slug
generation, readTime, excerpt, publishedAt; then the likesCount update. -/
def postHooks (p : Post) (m : PostMods) (now : Nat) : Post :=
  hookLikesCount (hookPublishedAt (hookReadTime (hookSlug p m) m) m now) m

/-- Schema validation for `Post` (required/length constraints of paths the
handlers can set; validation runs before the user `pre("save")` hooks). -/
def postValid (p : Post) : Bool :=
  !(p.title = "") && p.title.length ≤ 200 && p.content.length ≥ 10 &&
    p.seoTitle.length ≤ 60 && p.seoDescription.length ≤ 160 &&
    (match p.excerpt with
     | some e => e.length ≤ 300
     | none => true)

/-- Saving (`post.save()`) an already stored post: validate, run the pre-save
hooks, write back by id. -/
def savePost (db : DB) (p : Post) (m : PostMods) (now : Nat) : Except ApiErr DB :=
  if postValid p then
    .ok { db with posts := replaceBy Post.id db.posts p.id (postHooks p m now) }
  else .error .validationError

/-- Count query of the `commentSchema.post("save")` hook:
`Comment.countDocuments({post: pid, isDeleted: false})`. -/
def countND (l : List Comment) (pid : Nat) : Nat :=
  (l.filter (fun c => decide (c.post = pid ∧ c.isDeleted = false))).length

/-- The `commentSchema.post("save")` hook: recompute the owning post's
`commentsCount` from an authoritative count and write it back
(`Post.findByIdAndUpdate(this.post, { commentsCount })`). -/
def syncCommentsCount (db : DB) (pid : Nat) : DB :=
  { db with posts := db.posts.map (fun p =>
      if p.id = pid then { p with commentsCount := countND db.comments pid } else p) }

/-- Which comment paths a save marked as modified. -/
structure CMods where
  likes : Bool := false
  comment : Bool := false
deriving DecidableEq, Repr

/-- First step of the `commentSchema.pre("save")` hook:
`if (this.isModified("likes"))` update of `likesCount`. -/
def chookLikesCount (c : Comment) (m : CMods) : Comment :=
  if m.likes then { c with likesCount := c.likes.length } else c

/-- Second step of the `commentSchema.pre("save")` hook:
`if (this.isModified("comment") && !this.isNew)` edited-flag update. -/
def chookEdited (c : Comment) (m : CMods) (isNew : Bool) (now : Nat) : Comment :=
  if m.comment && !isNew then { c with isEdited := true, editedAt := some now } else c

/-- The `commentSchema.pre("save")` hook: likesCount update, then the
edited-flag update for a body modification on a non-new document. -/
def commentHooks (c : Comment) (m : CMods) (isNew : Bool) (now : Nat) : Comment :=
  chookEdited (chookLikesCount c m) m isNew now

/-- Schema validation for `Comment` (required, minlength 1, maxlength 1000). -/
def commentValid (c : Comment) : Bool :=
  !(c.comment = "") && c.comment.length ≤ 1000

/-- Saving (`comment.save()`) an already stored comment: validate, pre-save hooks,
write back by id, then the post-save commentsCount synchronization. -/
def saveComment (db : DB) (c : Comment) (m : CMods) (now : Nat) : Except ApiErr DB :=
  if commentValid c then
    let c1 := commentHooks c m false now
    .ok (syncCommentsCount { db with comments := replaceBy Comment.id db.comments c.id c1 } c1.post)
  else .error .validationError

/-- Saving a new comment (`newComment.save()`): validate, pre-save hooks with `isNew = true`
(`likes` carries only its default, so it is not a modified path), append,
then the commentsCount synchronization. -/
def saveNewComment (db : DB) (c : Comment) (now : Nat) : Except ApiErr DB :=
  if commentValid c then
    let c1 := commentHooks c { comment := true } true now
    .ok (syncCommentsCount { db with comments := db.comments ++ [c1] } c1.post)
  else .error .validationError

/-- Fields of the body of `POST /api/posts` that the handler reads.
Absent (`undefined`) fields are `none`. -/
structure NewPostFields where
  title : String := ""
  content : String := ""
  tags : Option (List String) := none
  category : Option String := none
  coverImage : Option String := none
  status : Option Status := none
  seoTitle : Option String := none
  seoDescription : Option String := none
deriving DecidableEq, Repr

/-- JavaScript `x || d` for an optional string field. -/
def orDefault (v : Option String) (d : String) : String :=
  match v with
  | some s => if s = "" then d else s
  | none => d

/-- Handler of `POST /api/posts` (create a post).  `newId` is the fresh
ObjectId and `now` the clock value used for this request. -/
def createPost (db : DB) (actor : Actor) (f : NewPostFields) (newId now : Nat) :
    Except ApiErr (DB × Post) :=
  if f.title = "" ∨ f.content = "" then .error .validationError
  else
    let p : Post :=
      { id := newId
        title := jsTrim f.title
        content := f.content
        excerpt := none
        coverImage := orDefault f.coverImage ""
        author := actor.id
        tags := f.tags.getD []
        category := orDefault f.category "Other"
        status := f.status.getD .draft
        views := 0
        likes := []
        likesCount := 0
        commentsCount := 0
        readTime := 1
        slug := none
        publishedAt := none
        featured := false
        seoTitle := orDefault f.seoTitle ""
        seoDescription := orDefault f.seoDescription "" }
    if postValid p then
      let p1 := postHooks p { title := true, content := true, status := true } now
      .ok ({ db with posts := db.posts ++ [p1] }, p1)
    else .error .validationError

/-- Patch body of `PUT /api/posts/:id`; `none` models an absent field. -/
structure PostPatch where
  title : Option String := none
  content : Option String := none
  tags : Option (List String) := none
  category : Option String := none
  coverImage : Option String := none
  status : Option Status := none
  seoTitle : Option String := none
  seoDescription : Option String := none
deriving DecidableEq, Repr

/-- Value after `if (v) post.field = f v` (JavaScript truthiness: an absent
or empty string leaves the field unchanged). -/
def setVal (old : String) (v : Option String) (f : String → String) : String :=
  match v with
  | some s => if s = "" then old else f s
  | none => old

/-- Whether mongoose marks the path modified by that assignment (it does
not when the assigned value equals the stored one). -/
def setMod (old : String) (v : Option String) (f : String → String) : Bool :=
  decide (¬setVal old v f = old)

/-- The post produced by the field assignments of `PUT /api/posts/:id`. -/
def patchedPost (p : Post) (patch : PostPatch) : Post :=
  { p with
    title := setVal p.title patch.title jsTrim
    content := setVal p.content patch.content id
    tags := patch.tags.getD p.tags
    category := orDefault patch.category p.category
    coverImage := patch.coverImage.getD p.coverImage
    status := patch.status.getD p.status
    seoTitle := patch.seoTitle.getD p.seoTitle
    seoDescription := patch.seoDescription.getD p.seoDescription }

/-- The modified paths recorded by those assignments. -/
def patchMods (p : Post) (patch : PostPatch) : PostMods :=
  { title := setMod p.title patch.title jsTrim
    content := setMod p.content patch.content id
    status := decide (¬patch.status.getD p.status = p.status) }

/-- Handler of `PUT /api/posts/:id` (partial update). -/
def updatePost (db : DB) (actor : Actor) (pid : Nat) (patch : PostPatch) (now : Nat) :
    Except ApiErr DB :=
  withPost db pid (fun p =>
    if ¬p.author = actor.id ∧ actor.admin = false then .error .forbidden
    else savePost db (patchedPost p patch) (patchMods p patch) now)

/-- Handler of `DELETE /api/posts/:id`: cascade — `Comment.deleteMany({post})`
first, then `Post.findByIdAndDelete`. -/
def deletePost (db : DB) (actor : Actor) (pid : Nat) : Except ApiErr DB :=
  withPost db pid (fun p =>
    if ¬p.author = actor.id ∧ actor.admin = false then .error .forbidden
    else
      let db1 : DB := { db with comments := db.comments.filter (fun c => !(c.post = pid : Bool)) }
      .ok { db1 with posts := db1.posts.filter (fun q => !(q.id = pid : Bool)) })

/-- Handler of `POST /api/posts/:id/like` (like/unlike toggle).  Returns the
new state, the response `liked` flag and the response `likesCount`. -/
def togglePostLike (db : DB) (actor : Actor) (pid now : Nat) :
    Except ApiErr (DB × Bool × Nat) :=
  withPost db pid (fun p =>
    let existing := p.likes.any (fun e => decide (e.user = actor.id))
    let likes1 :=
      if existing then p.likes.filter (fun e => !(e.user = actor.id : Bool))
      else p.likes ++ [{ user := actor.id, createdAt := now }]
    (savePost db { p with likes := likes1 } { likes := true } now).map
      (fun db1 => (db1, !existing, likes1.length)))

/-- Parent check of `POST /api/comments/:postId`: when a parent id is
supplied, the parent must exist and belong to the same post (`!parentCommentDoc
|| parentCommentDoc.post.toString() !== postId` rejected). -/
def parentOkCheck (db : DB) (postId : Nat) (parentComment : Option Nat) : Bool :=
  match parentComment with
  | none => true
  | some parId =>
    match findBy Comment.id db.comments parId with
    | none => false
    | some par => decide (par.post = postId)

/-- Handler of `POST /api/comments/:postId` (add a comment / reply).
The parent-comment check requires only that the parent exists and belongs
to the same post; it does not require the parent to be top-level. -/
def addComment (db : DB) (actor : Actor) (postId : Nat) (body : String)
    (parentComment : Option Nat) (newId now : Nat) : Except ApiErr (DB × Comment) :=
  if jsTrim body = "" then .error .validationError
  else withPost db postId (fun p =>
    if ¬p.status = .published then .error .invalidState
    else
      if !parentOkCheck db postId parentComment then .error .invalidParent
      else
        let c : Comment :=
          { id := newId
            comment := jsTrim body
            post := postId
            userId := actor.id
            parentComment := parentComment
            replies := []
            likes := []
            likesCount := 0
            isEdited := false
            editedAt := none
            isDeleted := false
            deletedAt := none }
        (saveNewComment db c now).map (fun db1 =>
          (match parentComment with
           | some parId =>
             { db1 with comments := db1.comments.map (fun q =>
                 if q.id = parId then { q with replies := q.replies ++ [newId] } else q) }
           | none => db1, c)))

/-- Handler of `PUT /api/comments/:commentId` (edit own comment). -/
def editComment (db : DB) (actor : Actor) (commentId : Nat) (body : String) (now : Nat) :
    Except ApiErr DB :=
  if jsTrim body = "" then .error .validationError
  else withComment db commentId (fun c =>
    if c.isDeleted then .error .invalidState
    else if ¬c.userId = actor.id then .error .forbidden
    else
      saveComment db { c with comment := jsTrim body }
        { comment := decide (¬jsTrim body = c.comment) } now)

/-- Body text written by the soft delete. -/
def deletedPlaceholder : String := "[This comment has been deleted]"

/-- Handler of `DELETE /api/comments/:commentId` (soft delete). -/
def softDeleteComment (db : DB) (actor : Actor) (commentId now : Nat) : Except ApiErr DB :=
  withComment db commentId (fun c =>
    if ¬c.userId = actor.id ∧ actor.admin = false then .error .forbidden
    else
      saveComment db { c with isDeleted := true, deletedAt := some now, comment := deletedPlaceholder }
        { comment := decide (¬deletedPlaceholder = c.comment) } now)

/-- Handler of `POST /api/comments/:commentId/like` (like/unlike toggle). -/
def toggleCommentLike (db : DB) (actor : Actor) (commentId now : Nat) :
    Except ApiErr (DB × Bool × Nat) :=
  withComment db commentId (fun c =>
    if c.isDeleted then .error .invalidState
    else
      let existing := c.likes.any (fun e => decide (e.user = actor.id))
      let likes1 :=
        if existing then c.likes.filter (fun e => !(e.user = actor.id : Bool))
        else c.likes ++ [{ user := actor.id, createdAt := now }]
      (saveComment db { c with likes := likes1 } { likes := true } now).map
        (fun db1 => (db1, !existing, likes1.length)))

/-- Visible top-level comments of `GET /api/comments/:postId` (the query
filter `{post, isDeleted: false, parentComment: null}`; ordering and
pagination are not modelled). -/
def listTopLevel (db : DB) (postId : Nat) : List Comment :=
  db.comments.filter (fun c => decide (c.post = postId ∧ c.isDeleted = false ∧ c.parentComment = none))

/-- Visible replies of a listed comment: the populate of `replies` with
`match: { isDeleted: false }` keeps only existing, non-deleted reply
documents. -/
def visibleReplies (db : DB) (par : Comment) : List Comment :=
  par.replies.filterMap (fun rid =>
    match findBy Comment.id db.comments rid with
    | some r => if r.isDeleted then none else some r
    | none => none)

/-- Schema invariants of a well-formed database state: Mongo ids are unique
per collection, the likes counters agree with the like sets, and every
post's `commentsCount` agrees with the authoritative count of the
non-deleted comments that reference it. -/
def WF (db : DB) : Prop :=
  (db.posts.map Post.id).Nodup ∧ (db.comments.map Comment.id).Nodup ∧
  (∀ p ∈ db.posts, p.likesCount = p.likes.length ∧ p.commentsCount = countND db.comments p.id) ∧
  (∀ c ∈ db.comments, c.likesCount = c.likes.length)

/-- Published posts carry a published date. -/
def PubInv (db : DB) : Prop :=
  ∀ p ∈ db.posts, p.status = .published → ¬p.publishedAt = none

/-- One successful mutation of the engine: any of the eight state-changing
handlers returning a success.  The freshness side conditions state that the
ids generated for new documents do not collide with stored ones (Mongo
ObjectId generation). -/
inductive Step : DB → DB → Prop where
  | postCreated (db : DB) (actor : Actor) (f : NewPostFields) (newId now : Nat)
      (db' : DB) (p : Post)
      (hfp : ∀ q ∈ db.posts, ¬q.id = newId) (hfc : ∀ c ∈ db.comments, ¬c.post = newId)
      (h : createPost db actor f newId now = .ok (db', p)) : Step db db'
  | postUpdated (db : DB) (actor : Actor) (pid : Nat) (patch : PostPatch) (now : Nat) (db' : DB)
      (h : updatePost db actor pid patch now = .ok db') : Step db db'
  | postDeleted (db : DB) (actor : Actor) (pid : Nat) (db' : DB)
      (h : deletePost db actor pid = .ok db') : Step db db'
  | postLikeToggled (db : DB) (actor : Actor) (pid now : Nat) (db' : DB) (liked : Bool) (n : Nat)
      (h : togglePostLike db actor pid now = .ok (db', liked, n)) : Step db db'
  | commentAdded (db : DB) (actor : Actor) (postId : Nat) (body : String)
      (par : Option Nat) (newId now : Nat) (db' : DB) (c : Comment)
      (hf : ∀ q ∈ db.comments, ¬q.id = newId)
      (h : addComment db actor postId body par newId now = .ok (db', c)) : Step db db'
  | commentEdited (db : DB) (actor : Actor) (cid : Nat) (body : String) (now : Nat) (db' : DB)
      (h : editComment db actor cid body now = .ok db') : Step db db'
  | commentSoftDeleted (db : DB) (actor : Actor) (cid now : Nat) (db' : DB)
      (h : softDeleteComment db actor cid now = .ok db') : Step db db'
  | commentLikeToggled (db : DB) (actor : Actor) (cid now : Nat) (db' : DB) (liked : Bool) (n : Nat)
      (h : toggleCommentLike db actor cid now = .ok (db', liked, n)) : Step db db'

deriving instance DecidableEq for Except

instance (db : DB) : Decidable (WF db) := by
  unfold WF
  infer_instance

instance (db : DB) : Decidable (PubInv db) := by
  unfold PubInv
  infer_instance

/-- A published post with no likes and no comments, used as a concrete
test fixture. -/
def exPost : Post :=
  { id := 1
    title := "T"
    content := "0123456789"
    excerpt := none
    coverImage := ""
    author := 9
    tags := []
    category := "Other"
    status := .published
    views := 0
    likes := []
    likesCount := 0
    commentsCount := 0
    readTime := 1
    slug := some "t"
    publishedAt := some 3
    featured := false
    seoTitle := ""
    seoDescription := "" }

/-- Fixture state: one published post, no comments. -/
def exDB0 : DB := { posts := [exPost], comments := [] }

/-- Fixture state after actor 7 likes post 1 at time 5. -/
def exDB1 : DB :=
  { posts := [{ exPost with likes := [{ user := 7, createdAt := 5 }], likesCount := 1 }]
    comments := [] }

/-- Spec model: the number of whitespace-separated words of the
tag-stripped content (an empty split segment is not a word). -/
def specWordCount (content : String) : Nat :=
  ((jsSplitWs (stripTags content.data)).filter (fun s => !s.isEmpty)).length

/-- Spec model (refinement target) of `readTime(content)`, following the
spec's words: strip markup tags, split on whitespace, divide the word count
by 200 words/minute, round up, minimum 1. -/
def specReadTime (content : String) : Nat :=
  max 1 ((specWordCount content + 199) / 200)

/-- Content consisting of 200 repetitions of the word `word`, each followed
by a space (so the stripped text ends in whitespace). -/
def exContent200 : String := String.join (List.replicate 200 "word ")

/-- The spec's 450-word example: `"<p>" + "word " * 450 + "</p>"`. -/
def exContent450 : String := "<p>" ++ String.join (List.replicate 450 "word ") ++ "</p>"

/-- Fixture: the empty database. -/
def exEmptyDB : DB := { posts := [], comments := [] }

/-- Fixture: `exDB0` after retitling its post (slug untouched). -/
def exDB2 : DB := { posts := [{ exPost with title := "New Title" }], comments := [] }

/-- Fixture: a top-level comment on post 1. -/
def exC10 : Comment :=
  { id := 10
    comment := "top"
    post := 1
    userId := 5
    parentComment := none
    replies := [11]
    likes := []
    likesCount := 0
    isEdited := false
    editedAt := none
    isDeleted := false
    deletedAt := none }

/-- Fixture: a reply to comment 10 on post 1. -/
def exC11 : Comment :=
  { exC10 with id := 11, comment := "reply", parentComment := some 10, replies := [] }

/-- Fixture state: one published post with a top-level comment and a reply
to it. -/
def exDB3 : DB :=
  { posts := [{ exPost with commentsCount := 2 }], comments := [exC10, exC11] }

/-- Fixture: `exPost` already liked by user 7 at time 0. -/
def exPostLiked : Post :=
  { exPost with likes := [{ user := 7, createdAt := 0 }], likesCount := 1 }

/-- Fixture state containing `exPostLiked`. -/
def exDBL : DB := { posts := [exPostLiked], comments := [] }

/-- Fixture: post 1 as a draft with no published date. -/
def exDB4 : DB :=
  { posts := [{ exPost with status := .draft, publishedAt := none }], comments := [] }

/-- Fixture: `exDB4` after its post is moved to Published at time 4. -/
def exDB5 : DB := { posts := [{ exPost with publishedAt := some 4 }], comments := [] }

/-- Fixture: a non-deleted comment on post 1 whose body already equals the
deletion placeholder text. -/
def exC12 : Comment :=
  { id := 12
    comment := deletedPlaceholder
    post := 1
    userId := 5
    parentComment := none
    replies := []
    likes := []
    likesCount := 0
    isEdited := false
    editedAt := none
    isDeleted := false
    deletedAt := none }

/-- Fixture state: one published post and the placeholder-bodied comment. -/
def exDBE : DB := { posts := [exPost], comments := [exC12] }

/-! Field-level description of the save hooks. -/

@[simp] theorem hookSlug_id (p : Post) (m : PostMods) : (hookSlug p m).id = p.id := by
  unfold hookSlug; (repeat' split) <;> rfl

@[simp] theorem hookSlug_likes (p : Post) (m : PostMods) : (hookSlug p m).likes = p.likes := by
  unfold hookSlug; (repeat' split) <;> rfl

@[simp] theorem hookSlug_likesCount (p : Post) (m : PostMods) : (hookSlug p m).likesCount = p.likesCount := by
  unfold hookSlug; (repeat' split) <;> rfl

@[simp] theorem hookSlug_commentsCount (p : Post) (m : PostMods) : (hookSlug p m).commentsCount = p.commentsCount := by
  unfold hookSlug; (repeat' split) <;> rfl

@[simp] theorem hookSlug_publishedAt (p : Post) (m : PostMods) : (hookSlug p m).publishedAt = p.publishedAt := by
  unfold hookSlug; (repeat' split) <;> rfl

@[simp] theorem hookSlug_status (p : Post) (m : PostMods) : (hookSlug p m).status = p.status := by
  unfold hookSlug; (repeat' split) <;> rfl

@[simp] theorem hookSlug_author (p : Post) (m : PostMods) : (hookSlug p m).author = p.author := by
  unfold hookSlug; (repeat' split) <;> rfl

@[simp] theorem hookSlug_title (p : Post) (m : PostMods) : (hookSlug p m).title = p.title := by
  unfold hookSlug; (repeat' split) <;> rfl

@[simp] theorem hookSlug_content (p : Post) (m : PostMods) : (hookSlug p m).content = p.content := by
  unfold hookSlug; (repeat' split) <;> rfl

@[simp] theorem hookSlug_views (p : Post) (m : PostMods) : (hookSlug p m).views = p.views := by
  unfold hookSlug; (repeat' split) <;> rfl

@[simp] theorem hookReadTime_id (p : Post) (m : PostMods) : (hookReadTime p m).id = p.id := by
  simp only [hookReadTime]; (repeat' split) <;> rfl

@[simp] theorem hookReadTime_likes (p : Post) (m : PostMods) : (hookReadTime p m).likes = p.likes := by
  simp only [hookReadTime]; (repeat' split) <;> rfl

@[simp] theorem hookReadTime_likesCount (p : Post) (m : PostMods) : (hookReadTime p m).likesCount = p.likesCount := by
  simp only [hookReadTime]; (repeat' split) <;> rfl

@[simp] theorem hookReadTime_commentsCount (p : Post) (m : PostMods) : (hookReadTime p m).commentsCount = p.commentsCount := by
  simp only [hookReadTime]; (repeat' split) <;> rfl

@[simp] theorem hookReadTime_publishedAt (p : Post) (m : PostMods) : (hookReadTime p m).publishedAt = p.publishedAt := by
  simp only [hookReadTime]; (repeat' split) <;> rfl

@[simp] theorem hookReadTime_status (p : Post) (m : PostMods) : (hookReadTime p m).status = p.status := by
  simp only [hookReadTime]; (repeat' split) <;> rfl

@[simp] theorem hookReadTime_author (p : Post) (m : PostMods) : (hookReadTime p m).author = p.author := by
  simp only [hookReadTime]; (repeat' split) <;> rfl

@[simp] theorem hookReadTime_title (p : Post) (m : PostMods) : (hookReadTime p m).title = p.title := by
  simp only [hookReadTime]; (repeat' split) <;> rfl

@[simp] theorem hookReadTime_slug (p : Post) (m : PostMods) : (hookReadTime p m).slug = p.slug := by
  simp only [hookReadTime]; (repeat' split) <;> rfl

@[simp] theorem hookReadTime_views (p : Post) (m : PostMods) : (hookReadTime p m).views = p.views := by
  simp only [hookReadTime]; (repeat' split) <;> rfl

@[simp] theorem hookPublishedAt_id (p : Post) (m : PostMods) (now : Nat) : (hookPublishedAt p m now).id = p.id := by
  unfold hookPublishedAt; (repeat' split) <;> rfl

@[simp] theorem hookPublishedAt_likes (p : Post) (m : PostMods) (now : Nat) : (hookPublishedAt p m now).likes = p.likes := by
  unfold hookPublishedAt; (repeat' split) <;> rfl

@[simp] theorem hookPublishedAt_likesCount (p : Post) (m : PostMods) (now : Nat) : (hookPublishedAt p m now).likesCount = p.likesCount := by
  unfold hookPublishedAt; (repeat' split) <;> rfl

@[simp] theorem hookPublishedAt_commentsCount (p : Post) (m : PostMods) (now : Nat) : (hookPublishedAt p m now).commentsCount = p.commentsCount := by
  unfold hookPublishedAt; (repeat' split) <;> rfl

@[simp] theorem hookPublishedAt_status (p : Post) (m : PostMods) (now : Nat) : (hookPublishedAt p m now).status = p.status := by
  unfold hookPublishedAt; (repeat' split) <;> rfl

@[simp] theorem hookPublishedAt_author (p : Post) (m : PostMods) (now : Nat) : (hookPublishedAt p m now).author = p.author := by
  unfold hookPublishedAt; (repeat' split) <;> rfl

@[simp] theorem hookPublishedAt_title (p : Post) (m : PostMods) (now : Nat) : (hookPublishedAt p m now).title = p.title := by
  unfold hookPublishedAt; (repeat' split) <;> rfl

@[simp] theorem hookPublishedAt_slug (p : Post) (m : PostMods) (now : Nat) : (hookPublishedAt p m now).slug = p.slug := by
  unfold hookPublishedAt; (repeat' split) <;> rfl

@[simp] theorem hookPublishedAt_views (p : Post) (m : PostMods) (now : Nat) : (hookPublishedAt p m now).views = p.views := by
  unfold hookPublishedAt; (repeat' split) <;> rfl

@[simp] theorem hookLikesCount_id (p : Post) (m : PostMods) : (hookLikesCount p m).id = p.id := by
  unfold hookLikesCount; (repeat' split) <;> rfl

@[simp] theorem hookLikesCount_likes (p : Post) (m : PostMods) : (hookLikesCount p m).likes = p.likes := by
  unfold hookLikesCount; (repeat' split) <;> rfl

@[simp] theorem hookLikesCount_commentsCount (p : Post) (m : PostMods) : (hookLikesCount p m).commentsCount = p.commentsCount := by
  unfold hookLikesCount; (repeat' split) <;> rfl

@[simp] theorem hookLikesCount_publishedAt (p : Post) (m : PostMods) : (hookLikesCount p m).publishedAt = p.publishedAt := by
  unfold hookLikesCount; (repeat' split) <;> rfl

@[simp] theorem hookLikesCount_status (p : Post) (m : PostMods) : (hookLikesCount p m).status = p.status := by
  unfold hookLikesCount; (repeat' split) <;> rfl

@[simp] theorem hookLikesCount_author (p : Post) (m : PostMods) : (hookLikesCount p m).author = p.author := by
  unfold hookLikesCount; (repeat' split) <;> rfl

@[simp] theorem hookLikesCount_title (p : Post) (m : PostMods) : (hookLikesCount p m).title = p.title := by
  unfold hookLikesCount; (repeat' split) <;> rfl

@[simp] theorem hookLikesCount_slug (p : Post) (m : PostMods) : (hookLikesCount p m).slug = p.slug := by
  unfold hookLikesCount; (repeat' split) <;> rfl

@[simp] theorem hookLikesCount_views (p : Post) (m : PostMods) : (hookLikesCount p m).views = p.views := by
  unfold hookLikesCount; (repeat' split) <;> rfl

@[simp] theorem hookSlug_slug (p : Post) (m : PostMods) :
    (hookSlug p m).slug = if m.title && !(strTruthy p.slug) then some (slugOf p.title) else p.slug := by
  unfold hookSlug; split <;> rfl

@[simp] theorem hookPublishedAt_publishedAt (p : Post) (m : PostMods) (now : Nat) :
    (hookPublishedAt p m now).publishedAt =
      if m.status && decide (p.status = .published) && decide (p.publishedAt = none) then some now
      else p.publishedAt := by
  unfold hookPublishedAt; split <;> rfl

@[simp] theorem hookLikesCount_likesCount (p : Post) (m : PostMods) :
    (hookLikesCount p m).likesCount = if m.likes then p.likes.length else p.likesCount := by
  unfold hookLikesCount; split <;> rfl

@[simp] theorem postHooks_id (p : Post) (m : PostMods) (now : Nat) : (postHooks p m now).id = p.id := by
  unfold postHooks; simp

@[simp] theorem postHooks_likes (p : Post) (m : PostMods) (now : Nat) : (postHooks p m now).likes = p.likes := by
  unfold postHooks; simp

@[simp] theorem postHooks_commentsCount (p : Post) (m : PostMods) (now : Nat) : (postHooks p m now).commentsCount = p.commentsCount := by
  unfold postHooks; simp

@[simp] theorem postHooks_status (p : Post) (m : PostMods) (now : Nat) : (postHooks p m now).status = p.status := by
  unfold postHooks; simp

@[simp] theorem postHooks_author (p : Post) (m : PostMods) (now : Nat) : (postHooks p m now).author = p.author := by
  unfold postHooks; simp

@[simp] theorem postHooks_title (p : Post) (m : PostMods) (now : Nat) : (postHooks p m now).title = p.title := by
  unfold postHooks; simp

@[simp] theorem postHooks_views (p : Post) (m : PostMods) (now : Nat) : (postHooks p m now).views = p.views := by
  unfold postHooks; simp

theorem postHooks_likesCount (p : Post) (m : PostMods) (now : Nat) :
    (postHooks p m now).likesCount = if m.likes then p.likes.length else p.likesCount := by
  unfold postHooks; simp

theorem postHooks_publishedAt (p : Post) (m : PostMods) (now : Nat) :
    (postHooks p m now).publishedAt =
      if m.status && decide (p.status = .published) && decide (p.publishedAt = none) then some now
      else p.publishedAt := by
  unfold postHooks; simp

theorem postHooks_slug (p : Post) (m : PostMods) (now : Nat) :
    (postHooks p m now).slug = if m.title && !(strTruthy p.slug) then some (slugOf p.title) else p.slug := by
  unfold postHooks; simp

@[simp] theorem chookLikesCount_id (c : Comment) (m : CMods) : (chookLikesCount c m).id = c.id := by
  unfold chookLikesCount; (repeat' split) <;> rfl

@[simp] theorem chookLikesCount_comment (c : Comment) (m : CMods) : (chookLikesCount c m).comment = c.comment := by
  unfold chookLikesCount; (repeat' split) <;> rfl

@[simp] theorem chookLikesCount_post (c : Comment) (m : CMods) : (chookLikesCount c m).post = c.post := by
  unfold chookLikesCount; (repeat' split) <;> rfl

@[simp] theorem chookLikesCount_userId (c : Comment) (m : CMods) : (chookLikesCount c m).userId = c.userId := by
  unfold chookLikesCount; (repeat' split) <;> rfl

@[simp] theorem chookLikesCount_parentComment (c : Comment) (m : CMods) : (chookLikesCount c m).parentComment = c.parentComment := by
  unfold chookLikesCount; (repeat' split) <;> rfl

@[simp] theorem chookLikesCount_replies (c : Comment) (m : CMods) : (chookLikesCount c m).replies = c.replies := by
  unfold chookLikesCount; (repeat' split) <;> rfl

@[simp] theorem chookLikesCount_likes (c : Comment) (m : CMods) : (chookLikesCount c m).likes = c.likes := by
  unfold chookLikesCount; (repeat' split) <;> rfl

@[simp] theorem chookLikesCount_isDeleted (c : Comment) (m : CMods) : (chookLikesCount c m).isDeleted = c.isDeleted := by
  unfold chookLikesCount; (repeat' split) <;> rfl

@[simp] theorem chookLikesCount_deletedAt (c : Comment) (m : CMods) : (chookLikesCount c m).deletedAt = c.deletedAt := by
  unfold chookLikesCount; (repeat' split) <;> rfl

@[simp] theorem chookEdited_id (c : Comment) (m : CMods) (isNew : Bool) (now : Nat) : (chookEdited c m isNew now).id = c.id := by
  unfold chookEdited; (repeat' split) <;> rfl

@[simp] theorem chookEdited_comment (c : Comment) (m : CMods) (isNew : Bool) (now : Nat) : (chookEdited c m isNew now).comment = c.comment := by
  unfold chookEdited; (repeat' split) <;> rfl

@[simp] theorem chookEdited_post (c : Comment) (m : CMods) (isNew : Bool) (now : Nat) : (chookEdited c m isNew now).post = c.post := by
  unfold chookEdited; (repeat' split) <;> rfl

@[simp] theorem chookEdited_userId (c : Comment) (m : CMods) (isNew : Bool) (now : Nat) : (chookEdited c m isNew now).userId = c.userId := by
  unfold chookEdited; (repeat' split) <;> rfl

@[simp] theorem chookEdited_parentComment (c : Comment) (m : CMods) (isNew : Bool) (now : Nat) : (chookEdited c m isNew now).parentComment = c.parentComment := by
  unfold chookEdited; (repeat' split) <;> rfl

@[simp] theorem chookEdited_replies (c : Comment) (m : CMods) (isNew : Bool) (now : Nat) : (chookEdited c m isNew now).replies = c.replies := by
  unfold chookEdited; (repeat' split) <;> rfl

@[simp] theorem chookEdited_likes (c : Comment) (m : CMods) (isNew : Bool) (now : Nat) : (chookEdited c m isNew now).likes = c.likes := by
  unfold chookEdited; (repeat' split) <;> rfl

@[simp] theorem chookEdited_likesCount (c : Comment) (m : CMods) (isNew : Bool) (now : Nat) : (chookEdited c m isNew now).likesCount = c.likesCount := by
  unfold chookEdited; (repeat' split) <;> rfl

@[simp] theorem chookEdited_isDeleted (c : Comment) (m : CMods) (isNew : Bool) (now : Nat) : (chookEdited c m isNew now).isDeleted = c.isDeleted := by
  unfold chookEdited; (repeat' split) <;> rfl

@[simp] theorem chookEdited_deletedAt (c : Comment) (m : CMods) (isNew : Bool) (now : Nat) : (chookEdited c m isNew now).deletedAt = c.deletedAt := by
  unfold chookEdited; (repeat' split) <;> rfl

@[simp] theorem chookLikesCount_isEdited (c : Comment) (m : CMods) : (chookLikesCount c m).isEdited = c.isEdited := by
  unfold chookLikesCount; (repeat' split) <;> rfl

@[simp] theorem chookLikesCount_editedAt (c : Comment) (m : CMods) : (chookLikesCount c m).editedAt = c.editedAt := by
  unfold chookLikesCount; (repeat' split) <;> rfl

@[simp] theorem chookLikesCount_likesCount (c : Comment) (m : CMods) :
    (chookLikesCount c m).likesCount = if m.likes then c.likes.length else c.likesCount := by
  unfold chookLikesCount; split <;> rfl

@[simp] theorem chookEdited_isEdited (c : Comment) (m : CMods) (isNew : Bool) (now : Nat) :
    (chookEdited c m isNew now).isEdited = if m.comment && !isNew then true else c.isEdited := by
  unfold chookEdited; split <;> rfl

@[simp] theorem chookEdited_editedAt (c : Comment) (m : CMods) (isNew : Bool) (now : Nat) :
    (chookEdited c m isNew now).editedAt = if m.comment && !isNew then some now else c.editedAt := by
  unfold chookEdited; split <;> rfl

@[simp] theorem commentHooks_id (c : Comment) (m : CMods) (isNew : Bool) (now : Nat) : (commentHooks c m isNew now).id = c.id := by
  unfold commentHooks; simp

@[simp] theorem commentHooks_comment (c : Comment) (m : CMods) (isNew : Bool) (now : Nat) : (commentHooks c m isNew now).comment = c.comment := by
  unfold commentHooks; simp

@[simp] theorem commentHooks_post (c : Comment) (m : CMods) (isNew : Bool) (now : Nat) : (commentHooks c m isNew now).post = c.post := by
  unfold commentHooks; simp

@[simp] theorem commentHooks_userId (c : Comment) (m : CMods) (isNew : Bool) (now : Nat) : (commentHooks c m isNew now).userId = c.userId := by
  unfold commentHooks; simp

@[simp] theorem commentHooks_parentComment (c : Comment) (m : CMods) (isNew : Bool) (now : Nat) : (commentHooks c m isNew now).parentComment = c.parentComment := by
  unfold commentHooks; simp

@[simp] theorem commentHooks_replies (c : Comment) (m : CMods) (isNew : Bool) (now : Nat) : (commentHooks c m isNew now).replies = c.replies := by
  unfold commentHooks; simp

@[simp] theorem commentHooks_likes (c : Comment) (m : CMods) (isNew : Bool) (now : Nat) : (commentHooks c m isNew now).likes = c.likes := by
  unfold commentHooks; simp

@[simp] theorem commentHooks_isDeleted (c : Comment) (m : CMods) (isNew : Bool) (now : Nat) : (commentHooks c m isNew now).isDeleted = c.isDeleted := by
  unfold commentHooks; simp

@[simp] theorem commentHooks_deletedAt (c : Comment) (m : CMods) (isNew : Bool) (now : Nat) : (commentHooks c m isNew now).deletedAt = c.deletedAt := by
  unfold commentHooks; simp

theorem commentHooks_likesCount (c : Comment) (m : CMods) (isNew : Bool) (now : Nat) :
    (commentHooks c m isNew now).likesCount = if m.likes then c.likes.length else c.likesCount := by
  unfold commentHooks; simp

theorem commentHooks_isEdited (c : Comment) (m : CMods) (isNew : Bool) (now : Nat) :
    (commentHooks c m isNew now).isEdited = if m.comment && !isNew then true else c.isEdited := by
  unfold commentHooks; simp

theorem commentHooks_editedAt (c : Comment) (m : CMods) (isNew : Bool) (now : Nat) :
    (commentHooks c m isNew now).editedAt = if m.comment && !isNew then some now else c.editedAt := by
  unfold commentHooks; simp

/-! Generic facts about id lookup and id-keyed writes. -/

theorem findBy_mem {α : Type} (f : α → Nat) (l : List α) (i : Nat) (x : α)
    (h : findBy f l i = some x) : x ∈ l ∧ f x = i := by
  unfold findBy at h
  refine ⟨List.mem_of_find?_eq_some h, ?_⟩
  simpa using List.find?_some h

theorem findBy_replaceBy_self {α : Type} (f : α → Nat) (l : List α) (i : Nat) (x y : α)
    (hx : f x = i) (h : findBy f l i = some y) :
    findBy f (replaceBy f l i x) i = some x := by
  induction l with
  | nil => simp [findBy] at h
  | cons a t ih =>
    by_cases ha : f a = i
    · simp [findBy, replaceBy, List.find?_cons, ha, hx]
    · simp only [findBy, replaceBy, List.map_cons, List.find?_cons, if_neg ha, ha,
        decide_eq_true_eq, if_false] at h ⊢
      exact ih h

theorem findBy_replaceBy_ne {α : Type} (f : α → Nat) (l : List α) (i : Nat) (x : α) (j : Nat)
    (hx : f x = i) (hne : ¬j = i) :
    findBy f (replaceBy f l i x) j = findBy f l j := by
  induction l with
  | nil => rfl
  | cons a t ih =>
    have hrep : replaceBy f (a :: t) i x = (if f a = i then x else a) :: replaceBy f t i x := rfl
    by_cases ha : f a = i
    · have hxj : ¬f x = j := by rw [hx]; exact fun hh => hne hh.symm
      have haj : ¬f a = j := by rw [ha]; exact fun hh => hne hh.symm
      rw [hrep, if_pos ha]
      simp only [findBy, List.find?_cons, hxj, haj, decide_False] at ih ⊢
      exact ih
    · rw [hrep, if_neg ha]
      by_cases haj : f a = j
      · simp only [findBy, List.find?_cons, haj, decide_True]
      · simp only [findBy, List.find?_cons, haj, decide_False] at ih ⊢
        exact ih

theorem map_replaceBy {α : Type} (f : α → Nat) (l : List α) (i : Nat) (x : α)
    (hx : f x = i) : (replaceBy f l i x).map f = l.map f := by
  unfold replaceBy
  rw [List.map_map]
  apply List.map_congr_left
  intro a _
  by_cases h : f a = i <;> simp [h, hx]

theorem replaceBy_eq_self {α : Type} (f : α → Nat) (l : List α) (i : Nat) (x : α)
    (h : ∀ q ∈ l, ¬f q = i) : replaceBy f l i x = l := by
  unfold replaceBy
  conv_rhs => rw [← List.map_id l]
  apply List.map_congr_left
  intro a ha
  simp [h a ha]

theorem mem_replaceBy {α : Type} (f : α → Nat) (l : List α) (i : Nat) (x y : α)
    (h : y ∈ replaceBy f l i x) : y = x ∨ (y ∈ l ∧ ¬f y = i) := by
  unfold replaceBy at h
  rcases List.mem_map.mp h with ⟨a, ha, hfa⟩
  by_cases hai : f a = i
  · left; rw [if_pos hai] at hfa; exact hfa.symm
  · right; rw [if_neg hai] at hfa; exact hfa ▸ ⟨ha, hai⟩

/-! Facts about the authoritative comment count. -/

theorem countND_cons (c : Comment) (l : List Comment) (pid : Nat) :
    countND (c :: l) pid =
      (if c.post = pid ∧ c.isDeleted = false then 1 else 0) + countND l pid := by
  unfold countND
  rw [List.filter_cons]
  by_cases h : c.post = pid ∧ c.isDeleted = false
  · simp [h]
    omega
  · simp [h]

theorem countND_append_one (l : List Comment) (c : Comment) (pid : Nat) :
    countND (l ++ [c]) pid =
      countND l pid + (if c.post = pid ∧ c.isDeleted = false then 1 else 0) := by
  unfold countND
  rw [List.filter_append, List.length_append]
  by_cases h : c.post = pid ∧ c.isDeleted = false
  · simp [h]
  · simp [h]

theorem countND_map_eq (g : Comment → Comment) (l : List Comment) (pid : Nat)
    (hg : ∀ c ∈ l, (g c).post = c.post ∧ (g c).isDeleted = c.isDeleted) :
    countND (l.map g) pid = countND l pid := by
  induction l with
  | nil => rfl
  | cons a t ih =>
    rw [List.map_cons, countND_cons, countND_cons, (hg a (List.mem_cons_self a t)).1,
      (hg a (List.mem_cons_self a t)).2, ih (fun c hc => hg c (List.mem_cons_of_mem a hc))]

theorem countND_replaceBy (l : List Comment) (cid : Nat) (c x : Comment) (pid : Nat)
    (hnd : (l.map Comment.id).Nodup) (hf : findBy Comment.id l cid = some c) :
    countND (replaceBy Comment.id l cid x) pid
        + (if c.post = pid ∧ c.isDeleted = false then 1 else 0)
      = countND l pid + (if x.post = pid ∧ x.isDeleted = false then 1 else 0) := by
  induction l with
  | nil => simp [findBy] at hf
  | cons a t ih =>
    rw [List.map_cons, List.nodup_cons] at hnd
    by_cases ha : a.id = cid
    · have hc : c = a := by
        unfold findBy at hf
        rw [List.find?_cons_of_pos _ (by simpa using ha)] at hf
        exact (Option.some.inj hf).symm
      have ht : replaceBy Comment.id t cid x = t := by
        apply replaceBy_eq_self
        intro q hq hq2
        have hqa : Comment.id q = a.id := hq2.trans ha.symm
        exact hnd.1 (by rw [← hqa]; exact List.mem_map_of_mem Comment.id hq)
      have hr : replaceBy Comment.id (a :: t) cid x = x :: t := by
        unfold replaceBy at ht ⊢
        rw [List.map_cons, if_pos ha, ht]
      rw [hr, countND_cons, countND_cons, hc]
      omega
    · have hf' : findBy Comment.id t cid = some c := by
        unfold findBy at hf ⊢
        rwa [List.find?_cons_of_neg _ (by simpa using ha)] at hf
      have hr : replaceBy Comment.id (a :: t) cid x = a :: replaceBy Comment.id t cid x := by
        unfold replaceBy
        rw [List.map_cons, if_neg ha]
      rw [hr, countND_cons, countND_cons]
      have := ih hnd.2 hf'
      omega

theorem countND_filter_other (l : List Comment) (pid qid : Nat) (h : ¬qid = pid) :
    countND (l.filter (fun c => !(c.post = pid : Bool))) qid = countND l qid := by
  induction l with
  | nil => rfl
  | cons a t ih =>
    rw [List.filter_cons, countND_cons]
    by_cases hap : a.post = pid
    · simp [hap, ih]
      exact fun hpq => (h hpq.symm).elim
    · simp [hap, countND_cons, ih]

/-! Inversion of the save primitives. -/

theorem savePost_ok (db : DB) (p : Post) (m : PostMods) (now : Nat) (db' : DB)
    (h : savePost db p m now = .ok db') :
    postValid p = true ∧
    db' = { db with posts := replaceBy Post.id db.posts p.id (postHooks p m now) } := by
  unfold savePost at h
  split at h
  · exact ⟨by assumption, (Except.ok.inj h).symm⟩
  · simp at h

theorem saveComment_ok (db : DB) (c : Comment) (m : CMods) (now : Nat) (db' : DB)
    (h : saveComment db c m now = .ok db') :
    commentValid c = true ∧
    db' = syncCommentsCount
        { db with comments := replaceBy Comment.id db.comments c.id (commentHooks c m false now) }
        (commentHooks c m false now).post := by
  unfold saveComment at h
  split at h
  · exact ⟨by assumption, (Except.ok.inj h).symm⟩
  · simp at h

theorem saveNewComment_ok (db : DB) (c : Comment) (now : Nat) (db' : DB)
    (h : saveNewComment db c now = .ok db') :
    commentValid c = true ∧
    db' = syncCommentsCount { db with comments := db.comments ++ [c] } c.post := by
  unfold saveNewComment at h
  split at h
  · exact ⟨by assumption, (Except.ok.inj h).symm⟩
  · simp at h

/-! Preservation of the well-formedness invariant by each kind of write. -/

theorem map_id_of_preserve {α : Type} (f : α → Nat) (g : α → α) (l : List α)
    (hg : ∀ a ∈ l, f (g a) = f a) : (l.map g).map f = l.map f := by
  rw [List.map_map]
  exact List.map_congr_left (fun a ha => hg a ha)

theorem countND_eq_zero (l : List Comment) (pid : Nat) (h : ∀ c ∈ l, ¬c.post = pid) :
    countND l pid = 0 := by
  induction l with
  | nil => rfl
  | cons a t ih =>
    rw [countND_cons, if_neg (fun hc => h a (List.mem_cons_self a t) hc.1),
      ih (fun c hc => h c (List.mem_cons_of_mem a hc))]

theorem wf_syncCommentsCount (db : DB) (pid : Nat)
    (h1 : (db.posts.map Post.id).Nodup) (h2 : (db.comments.map Comment.id).Nodup)
    (h3 : ∀ p ∈ db.posts, p.likesCount = p.likes.length ∧
      (¬p.id = pid → p.commentsCount = countND db.comments p.id))
    (h4 : ∀ c ∈ db.comments, c.likesCount = c.likes.length) :
    WF (syncCommentsCount db pid) := by
  refine ⟨?_, h2, ?_, h4⟩
  · rw [show (syncCommentsCount db pid).posts
        = db.posts.map (fun p => if p.id = pid then
            { p with commentsCount := countND db.comments pid } else p) from rfl]
    rw [map_id_of_preserve Post.id _ db.posts (fun p _ => by split <;> rfl)]
    exact h1
  · intro q hq
    rcases List.mem_map.mp hq with ⟨q0, hq0, hq0e⟩
    by_cases hqi : q0.id = pid
    · rw [if_pos hqi] at hq0e
      subst hq0e
      refine ⟨(h3 q0 hq0).1, ?_⟩
      show countND db.comments pid = countND db.comments q0.id
      rw [hqi]
    · rw [if_neg hqi] at hq0e
      subst hq0e
      exact ⟨(h3 q0 hq0).1, (h3 q0 hq0).2 hqi⟩

theorem wf_commentWrite (db : DB) (c c1 : Comment) (cid : Nat) (hwf : WF db)
    (hid : c1.id = cid)
    (hf : findBy Comment.id db.comments cid = some c)
    (hpost : c1.post = c.post)
    (hlc : c1.likesCount = c1.likes.length) :
    WF (syncCommentsCount { db with comments := replaceBy Comment.id db.comments cid c1 }
      c1.post) := by
  obtain ⟨hndp, hndc, hposts, hcs⟩ := hwf
  apply wf_syncCommentsCount
  · exact hndp
  · show ((replaceBy Comment.id db.comments cid c1).map Comment.id).Nodup
    rw [map_replaceBy _ _ _ _ hid]
    exact hndc
  · intro q hq
    refine ⟨(hposts q hq).1, fun hqi => ?_⟩
    have hcnt := countND_replaceBy db.comments cid c c1 q.id hndc hf
    have hc0 : ¬(c.post = q.id ∧ c.isDeleted = false) := by
      rintro ⟨h1, -⟩
      exact hqi (by rw [← h1, ← hpost])
    have hc1 : ¬(c1.post = q.id ∧ c1.isDeleted = false) := by
      rintro ⟨h1, -⟩
      exact hqi (by rw [← h1])
    rw [if_neg hc0, if_neg hc1] at hcnt
    have h2 := (hposts q hq).2
    show q.commentsCount = countND (replaceBy Comment.id db.comments cid c1) q.id
    omega
  · intro q hq
    rcases mem_replaceBy _ _ _ _ _ hq with hq1 | hq1
    · rw [hq1]
      exact hlc
    · exact hcs q hq1.1

theorem wf_commentAppend (db : DB) (c : Comment) (hwf : WF db)
    (hfresh : ∀ q ∈ db.comments, ¬q.id = c.id)
    (hlc : c.likesCount = c.likes.length) :
    WF (syncCommentsCount { db with comments := db.comments ++ [c] } c.post) := by
  obtain ⟨hndp, hndc, hposts, hcs⟩ := hwf
  apply wf_syncCommentsCount
  · exact hndp
  · show ((db.comments ++ [c]).map Comment.id).Nodup
    rw [List.map_append, List.nodup_append]
    refine ⟨hndc, List.nodup_singleton _, ?_⟩
    intro i hi
    rcases List.mem_map.mp hi with ⟨q, hq, hqe⟩
    simp only [List.map_cons, List.map_nil, List.mem_singleton]
    intro hic
    exact hfresh q hq (by rw [← hqe] at hic; exact hic)
  · intro q hq
    refine ⟨(hposts q hq).1, fun hqi => ?_⟩
    show q.commentsCount = countND (db.comments ++ [c]) q.id
    rw [countND_append_one, if_neg (fun hc : c.post = q.id ∧ _ => hqi hc.1.symm),
      Nat.add_zero]
    exact (hposts q hq).2
  · intro q hq
    rcases List.mem_append.mp hq with hq1 | hq1
    · exact hcs q hq1
    · rw [List.mem_singleton.mp hq1]
      exact hlc

theorem wf_repliesPush (db : DB) (parId newId : Nat) (hwf : WF db) :
    WF { db with comments := db.comments.map (fun q =>
        if q.id = parId then { q with replies := q.replies ++ [newId] } else q) } := by
  obtain ⟨hndp, hndc, hposts, hcs⟩ := hwf
  refine ⟨hndp, ?_, ?_, ?_⟩
  · rw [map_id_of_preserve Comment.id _ db.comments (fun a _ => by split <;> rfl)]
    exact hndc
  · intro q hq
    have := hposts q hq
    rwa [countND_map_eq _ _ _ (fun a _ => by split <;> exact ⟨rfl, rfl⟩)]
  · intro q hq
    rcases List.mem_map.mp hq with ⟨q0, hq0, hq0e⟩
    have : q.likesCount = q0.likesCount ∧ q.likes = q0.likes := by
      subst hq0e
      split <;> exact ⟨rfl, rfl⟩
    rw [this.1, this.2]
    exact hcs q0 hq0

theorem wf_postWrite (db : DB) (p p1 : Post) (pid : Nat) (hwf : WF db)
    (hid : p1.id = pid)
    (hf : findBy Post.id db.posts pid = some p)
    (hcc : p1.commentsCount = p.commentsCount)
    (hlc : p1.likesCount = p1.likes.length) :
    WF { db with posts := replaceBy Post.id db.posts pid p1 } := by
  obtain ⟨hndp, hndc, hposts, hcs⟩ := hwf
  obtain ⟨hpm, hpi⟩ := findBy_mem _ _ _ _ hf
  refine ⟨?_, hndc, ?_, hcs⟩
  · rw [map_replaceBy _ _ _ _ hid]
    exact hndp
  · intro q hq
    rcases mem_replaceBy _ _ _ _ _ hq with hq1 | hq1
    · subst hq1
      refine ⟨hlc, ?_⟩
      rw [hcc, (hposts p hpm).2, hpi, hid]
    · exact hposts q hq1.1

theorem wf_postAppend (db : DB) (p : Post) (hwf : WF db)
    (hfresh : ∀ q ∈ db.posts, ¬q.id = p.id)
    (hcfresh : ∀ c ∈ db.comments, ¬c.post = p.id)
    (hlc : p.likesCount = p.likes.length) (hcc : p.commentsCount = 0) :
    WF { db with posts := db.posts ++ [p] } := by
  obtain ⟨hndp, hndc, hposts, hcs⟩ := hwf
  refine ⟨?_, hndc, ?_, hcs⟩
  · rw [List.map_append, List.nodup_append]
    refine ⟨hndp, List.nodup_singleton _, ?_⟩
    intro i hi
    rcases List.mem_map.mp hi with ⟨q, hq, hqe⟩
    simp only [List.map_cons, List.map_nil, List.mem_singleton]
    intro hic
    exact hfresh q hq (by rw [← hqe] at hic; exact hic)
  · intro q hq
    rcases List.mem_append.mp hq with hq1 | hq1
    · exact hposts q hq1
    · rw [List.mem_singleton.mp hq1]
      exact ⟨hlc, by rw [hcc, countND_eq_zero db.comments p.id hcfresh]⟩

theorem wf_deleteState (db : DB) (pid : Nat) (hwf : WF db) :
    WF { posts := db.posts.filter (fun q => !(q.id = pid : Bool)),
         comments := db.comments.filter (fun c => !(c.post = pid : Bool)) } := by
  obtain ⟨hndp, hndc, hposts, hcs⟩ := hwf
  refine ⟨?_, ?_, ?_, ?_⟩
  · exact List.Nodup.sublist (List.Sublist.map Post.id (List.filter_sublist db.posts)) hndp
  · exact List.Nodup.sublist (List.Sublist.map Comment.id (List.filter_sublist db.comments)) hndc
  · intro q hq
    have hqm := List.mem_of_mem_filter hq
    have hqp : ¬q.id = pid := by
      have := List.of_mem_filter hq
      simpa using this
    refine ⟨(hposts q hqm).1, ?_⟩
    rw [countND_filter_other db.comments pid q.id hqp]
    exact (hposts q hqm).2
  · intro q hq
    exact hcs q (List.mem_of_mem_filter hq)

theorem except_map_ok {ε α β : Type} (f : α → β) (e : Except ε α) (b : β)
    (h : e.map f = .ok b) : ∃ a, e = .ok a ∧ b = f a := by
  cases e with
  | error err => simp [Except.map] at h
  | ok a => exact ⟨a, rfl, by simpa [Except.map] using h.symm⟩

theorem withPost_ok {β : Type} (db : DB) (pid : Nat) (k : Post → Except ApiErr β) (v : β)
    (h : withPost db pid k = .ok v) :
    ∃ p, findBy Post.id db.posts pid = some p ∧ k p = .ok v := by
  unfold withPost at h
  cases hf : findBy Post.id db.posts pid with
  | none => rw [hf] at h; simp at h
  | some p =>
    rw [hf] at h
    exact ⟨p, rfl, h⟩

theorem withComment_ok {β : Type} (db : DB) (cid : Nat) (k : Comment → Except ApiErr β) (v : β)
    (h : withComment db cid k = .ok v) :
    ∃ c, findBy Comment.id db.comments cid = some c ∧ k c = .ok v := by
  unfold withComment at h
  cases hf : findBy Comment.id db.comments cid with
  | none => rw [hf] at h; simp at h
  | some c =>
    rw [hf] at h
    exact ⟨c, rfl, h⟩

theorem wf_togglePostLike (db : DB) (a : Actor) (pid now : Nat) (db' : DB) (liked : Bool) (n : Nat)
    (hwf : WF db) (h : togglePostLike db a pid now = .ok (db', liked, n)) : WF db' := by
  unfold togglePostLike at h
  obtain ⟨p, hf, h2⟩ := withPost_ok _ _ _ _ h
  obtain ⟨db1, heq, hv2⟩ := except_map_ok _ _ _ h2
  simp only [Prod.mk.injEq] at hv2
  obtain ⟨hdb', -, -⟩ := hv2
  obtain ⟨hv, hdb1⟩ := savePost_ok _ _ _ _ _ heq
  rw [hdb', hdb1]
  have hkey : Post.id p = pid := (findBy_mem _ _ _ _ hf).2
  refine wf_postWrite db p _ p.id hwf ?_ ?_ ?_ ?_
  · exact postHooks_id _ _ _
  · rw [hkey]
    exact hf
  · simp
  · rw [postHooks_likesCount]
    simp

theorem wf_updatePost (db : DB) (a : Actor) (pid : Nat) (patch : PostPatch) (now : Nat) (db' : DB)
    (hwf : WF db) (h : updatePost db a pid patch now = .ok db') : WF db' := by
  unfold updatePost at h
  obtain ⟨p, hf, h2⟩ := withPost_ok _ _ _ _ h
  split at h2
  · simp at h2
  · obtain ⟨hv, hdb1⟩ := savePost_ok _ _ _ _ _ h2
    rw [hdb1]
    have hkey : Post.id p = pid := (findBy_mem _ _ _ _ hf).2
    have hmem : p ∈ db.posts := (findBy_mem _ _ _ _ hf).1
    refine wf_postWrite db p _ p.id hwf ?_ ?_ ?_ ?_
    · rw [postHooks_id]
      rfl
    · rw [hkey]
      exact hf
    · simp [patchedPost]
    · rw [postHooks_likesCount]
      simp only [patchMods, patchedPost, postHooks_likes]
      exact (hwf.2.2.1 p hmem).1

theorem wf_createPost (db : DB) (a : Actor) (f : NewPostFields) (newId now : Nat)
    (db' : DB) (p : Post) (hwf : WF db)
    (hfp : ∀ q ∈ db.posts, ¬q.id = newId) (hfc : ∀ c ∈ db.comments, ¬c.post = newId)
    (h : createPost db a f newId now = .ok (db', p)) : WF db' := by
  unfold createPost at h
  split at h
  · simp at h
  · simp only [] at h
    split at h
    · simp only [Except.ok.injEq, Prod.mk.injEq] at h
      obtain ⟨hdb', -⟩ := h
      rw [← hdb']
      refine wf_postAppend db _ hwf ?_ ?_ ?_ ?_
      · intro q hq
        rw [postHooks_id]
        exact hfp q hq
      · intro q hq
        rw [postHooks_id]
        exact hfc q hq
      · rw [postHooks_likesCount]
        simp
      · simp
    · simp at h

theorem wf_deletePost (db : DB) (a : Actor) (pid : Nat) (db' : DB)
    (hwf : WF db) (h : deletePost db a pid = .ok db') : WF db' := by
  unfold deletePost at h
  obtain ⟨p, hf, h2⟩ := withPost_ok _ _ _ _ h
  simp only [] at h2
  split at h2
  · simp at h2
  · rw [← Except.ok.inj h2]
    exact wf_deleteState db pid hwf

theorem wf_addComment (db : DB) (a : Actor) (postId : Nat) (body : String)
    (par : Option Nat) (newId now : Nat) (db' : DB) (c : Comment)
    (hwf : WF db) (hfresh : ∀ q ∈ db.comments, ¬q.id = newId)
    (h : addComment db a postId body par newId now = .ok (db', c)) : WF db' := by
  unfold addComment at h
  split at h
  · simp at h
  · obtain ⟨p, hfp, h2⟩ := withPost_ok _ _ _ _ h
    simp only [] at h2
    split at h2
    · simp at h2
    · split at h2
      · simp at h2
      · obtain ⟨db1, heq, hv2⟩ := except_map_ok _ _ _ h2
        simp only [Prod.mk.injEq] at hv2
        obtain ⟨hdb', -⟩ := hv2
        obtain ⟨hv, hdb1⟩ := saveNewComment_ok _ _ _ _ heq
        rw [hdb', hdb1]
        cases par with
        | none =>
          refine wf_commentAppend db _ hwf ?_ rfl
          intro q hq
          exact hfresh q hq
        | some parId =>
          refine wf_repliesPush _ parId newId ?_
          refine wf_commentAppend db _ hwf ?_ rfl
          intro q hq
          exact hfresh q hq

theorem wf_editComment (db : DB) (a : Actor) (cid : Nat) (body : String) (now : Nat) (db' : DB)
    (hwf : WF db) (h : editComment db a cid body now = .ok db') : WF db' := by
  unfold editComment at h
  split at h
  · simp at h
  · obtain ⟨c, hfc, h2⟩ := withComment_ok _ _ _ _ h
    split at h2
    · simp at h2
    · split at h2
      · simp at h2
      · obtain ⟨hv, hdb1⟩ := saveComment_ok _ _ _ _ _ h2
        rw [hdb1]
        have hkey : Comment.id c = cid := (findBy_mem _ _ _ _ hfc).2
        have hmem : c ∈ db.comments := (findBy_mem _ _ _ _ hfc).1
        refine wf_commentWrite db c _ c.id hwf ?_ ?_ ?_ ?_
        · rw [commentHooks_id]
        · rw [hkey]
          exact hfc
        · rw [commentHooks_post]
        · rw [commentHooks_likesCount]
          simp only [commentHooks_likes]
          exact hwf.2.2.2 c hmem

theorem wf_softDeleteComment (db : DB) (a : Actor) (cid now : Nat) (db' : DB)
    (hwf : WF db) (h : softDeleteComment db a cid now = .ok db') : WF db' := by
  unfold softDeleteComment at h
  obtain ⟨c, hfc, h2⟩ := withComment_ok _ _ _ _ h
  split at h2
  · simp at h2
  · obtain ⟨hv, hdb1⟩ := saveComment_ok _ _ _ _ _ h2
    rw [hdb1]
    have hkey : Comment.id c = cid := (findBy_mem _ _ _ _ hfc).2
    have hmem : c ∈ db.comments := (findBy_mem _ _ _ _ hfc).1
    refine wf_commentWrite db c _ c.id hwf ?_ ?_ ?_ ?_
    · rw [commentHooks_id]
    · rw [hkey]
      exact hfc
    · rw [commentHooks_post]
    · rw [commentHooks_likesCount]
      simp only [commentHooks_likes]
      exact hwf.2.2.2 c hmem

theorem wf_toggleCommentLike (db : DB) (a : Actor) (cid now : Nat) (db' : DB)
    (liked : Bool) (n : Nat)
    (hwf : WF db) (h : toggleCommentLike db a cid now = .ok (db', liked, n)) : WF db' := by
  unfold toggleCommentLike at h
  obtain ⟨c, hfc, h2⟩ := withComment_ok _ _ _ _ h
  simp only [] at h2
  split at h2
  · simp at h2
  · obtain ⟨db1, heq, hv2⟩ := except_map_ok _ _ _ h2
    simp only [Prod.mk.injEq] at hv2
    obtain ⟨hdb', -⟩ := hv2
    obtain ⟨hv, hdb1⟩ := saveComment_ok _ _ _ _ _ heq
    rw [hdb', hdb1]
    have hkey : Comment.id c = cid := (findBy_mem _ _ _ _ hfc).2
    refine wf_commentWrite db c _ c.id hwf ?_ ?_ ?_ ?_
    · rw [commentHooks_id]
    · rw [hkey]
      exact hfc
    · rw [commentHooks_post]
    · rw [commentHooks_likesCount]
      simp

theorem syncCommentsCount_idem (db : DB) (pid : Nat) :
    syncCommentsCount (syncCommentsCount db pid) pid = syncCommentsCount db pid := by
  unfold syncCommentsCount
  simp only [List.map_map]
  congr 1
  apply List.map_congr_left
  intro p hp
  by_cases hpi : p.id = pid
  · simp [hpi]
  · simp [hpi]

/-- C2: after every successful mutation (post create / update / delete /
like-toggle, comment create / edit / soft-delete / like-toggle) on a
well-formed state, every stored post satisfies `likesCount = |likes|` and
`commentsCount = ` the count of non-deleted comments referencing it; the
whole well-formedness invariant is preserved, and the authoritative
`commentsCount` recomputation is idempotent: running the synchronization a
second time leaves the state unchanged. -/
theorem C2_counters_consistent (db db' : DB) (hwf : WF db) (hstep : Step db db') :
    (∀ p ∈ db'.posts, p.likesCount = p.likes.length ∧
      p.commentsCount = countND db'.comments p.id) ∧
    WF db' ∧
    (∀ pid, syncCommentsCount (syncCommentsCount db' pid) pid = syncCommentsCount db' pid) := by
  have hwf' : WF db' := by
    cases hstep with
    | postCreated actor f newId now _ p hfp hfc h =>
      exact wf_createPost db actor f newId now db' p hwf hfp hfc h
    | postUpdated actor pid patch now _ h =>
      exact wf_updatePost db actor pid patch now db' hwf h
    | postDeleted actor pid _ h =>
      exact wf_deletePost db actor pid db' hwf h
    | postLikeToggled actor pid now _ liked n h =>
      exact wf_togglePostLike db actor pid now db' liked n hwf h
    | commentAdded actor postId body par newId now _ c hf h =>
      exact wf_addComment db actor postId body par newId now db' c hwf hf h
    | commentEdited actor cid body now _ h =>
      exact wf_editComment db actor cid body now db' hwf h
    | commentSoftDeleted actor cid now _ h =>
      exact wf_softDeleteComment db actor cid now db' hwf h
    | commentLikeToggled actor cid now _ liked n h =>
      exact wf_toggleCommentLike db actor cid now db' liked n hwf h
  exact ⟨hwf'.2.2.1, hwf', fun pid => syncCommentsCount_idem db' pid⟩

/-- Witness for C2 at a concrete input: the like-toggle step from `exDB0`
to `exDB1`. -/
theorem C2_counters_consistent_witness :
    (∀ p ∈ exDB1.posts, p.likesCount = p.likes.length ∧
      p.commentsCount = countND exDB1.comments p.id) ∧
    WF exDB1 ∧
    (∀ pid, syncCommentsCount (syncCommentsCount exDB1 pid) pid = syncCommentsCount exDB1 pid) :=
  C2_counters_consistent exDB0 exDB1 (by decide)
    (Step.postLikeToggled exDB0 ⟨7, false⟩ 1 5 exDB1 true 1 (by decide))

theorem jsSplitWs_ne_nil (l : List Char) : ¬jsSplitWs l = [] := by
  induction l with
  | nil => simp [jsSplitWs]
  | cons c rest ih =>
    unfold jsSplitWs
    by_cases hc : jsIsWs c
    · by_cases hh : rest.head?.any jsIsWs
      · simpa [hc, hh] using ih
      · simp [hc, hh]
    · cases hs : jsSplitWs rest with
      | nil => simp [hc, hs]
      | cons s ss => simp [hc, hs]

theorem jsSplitWs_cons_not_ws (d : Char) (rest : List Char) (hd : jsIsWs d = false) :
    ∃ s ss, jsSplitWs (d :: rest) = (d :: s) :: ss := by
  unfold jsSplitWs
  cases hs : jsSplitWs rest with
  | nil => exact ⟨[], [], by simp [hd]⟩
  | cons s ss => exact ⟨s, ss, by simp [hd]⟩

theorem jsSplitWs_tail_ne_nil (l : List Char)
    (hlast : ∀ c, l.getLast? = some c → jsIsWs c = false) :
    ∀ s ∈ (jsSplitWs l).tail, ¬s = [] := by
  induction l with
  | nil =>
    intro s hs
    simp [jsSplitWs] at hs
  | cons c rest ih =>
    cases rest with
    | nil =>
      have hc := hlast c (by simp)
      intro s hs
      simp [jsSplitWs, hc] at hs
    | cons r1 rts =>
      have hlast2 : ∀ c2, (r1 :: rts).getLast? = some c2 → jsIsWs c2 = false := by
        intro c2 hc2
        exact hlast c2 (by rw [List.getLast?_cons_cons]; exact hc2)
      have ih2 := ih hlast2
      intro s hs
      unfold jsSplitWs at hs
      by_cases hc : jsIsWs c
      · rw [if_pos hc] at hs
        by_cases hh : (r1 :: rts).head?.any jsIsWs
        · rw [if_pos hh] at hs
          exact ih2 s hs
        · rw [if_neg hh] at hs
          rw [List.tail_cons] at hs
          have hr1 : jsIsWs r1 = false := by
            cases hws : jsIsWs r1
            · rfl
            · exact absurd (by simp [hws]) hh
          obtain ⟨s0, ss0, heq⟩ := jsSplitWs_cons_not_ws r1 rts hr1
          rw [heq] at hs ih2
          rcases List.mem_cons.mp hs with h1 | h1
          · rw [h1]
            simp
          · exact ih2 s (by rw [List.tail_cons]; exact h1)
      · rw [if_neg hc] at hs
        cases hsp : jsSplitWs (r1 :: rts) with
        | nil => exact absurd hsp (jsSplitWs_ne_nil _)
        | cons s1 ss1 =>
          rw [hsp] at hs ih2
          rw [List.tail_cons] at hs ih2
          exact ih2 s hs

theorem jsSplitWs_all_ne_nil (l : List Char) (hne : ¬l = [])
    (hhead : ∀ c, l.head? = some c → jsIsWs c = false)
    (hlast : ∀ c, l.getLast? = some c → jsIsWs c = false) :
    ∀ s ∈ jsSplitWs l, ¬s = [] := by
  cases l with
  | nil => exact absurd rfl hne
  | cons d rest =>
    have hd : jsIsWs d = false := hhead d rfl
    obtain ⟨s0, ss0, heq⟩ := jsSplitWs_cons_not_ws d rest hd
    intro s hs
    rw [heq] at hs
    rcases List.mem_cons.mp hs with h1 | h1
    · rw [h1]
      simp
    · have htail := jsSplitWs_tail_ne_nil (d :: rest) hlast
      rw [heq, List.tail_cons] at htail
      exact htail s h1

/-- C4 counterexample: on content consisting of exactly 200 words each
followed by a space, the stored readTime is 2, while the spec formula
(ceil of the word count divided by 200, minimum 1) gives 1 — the code
counts the empty split segment produced by the trailing whitespace as a
word. -/
theorem C4_counterexample :
    readTimeOf exContent200 = 2 ∧ specReadTime exContent200 = 1 ∧
    ¬readTimeOf exContent200 = specReadTime exContent200 := by
  refine ⟨by decide, by decide, by decide⟩

/-- C4 (amended): readTime is the ceiling of the JavaScript split-segment
count divided by 200; the minimum of 1 is implicit because the segment
count is never zero.  The segment count includes an empty segment for
leading or trailing whitespace of the tag-stripped content, so readTime
agrees with the spec's whitespace-separated word-count formula whenever the
stripped content neither starts nor ends with whitespace; on the spec's
450-word example both give 3. -/
theorem C4_readTime_amended :
    (∀ content : String, 1 ≤ jsWordCount content ∧
      readTimeOf content = max 1 ((jsWordCount content + 199) / 200)) ∧
    (∀ content : String,
      (∀ c, (stripTags content.data).head? = some c → jsIsWs c = false) →
      (∀ c, (stripTags content.data).getLast? = some c → jsIsWs c = false) →
      readTimeOf content = specReadTime content) ∧
    readTimeOf exContent450 = 3 ∧ specReadTime exContent450 = 3 := by
  refine ⟨?_, ?_, by decide, by decide⟩
  · intro content
    have h1 : 1 ≤ jsWordCount content := by
      unfold jsWordCount
      cases hq : jsSplitWs (stripTags content.data) with
      | nil => exact absurd hq (jsSplitWs_ne_nil _)
      | cons a t => simp
    refine ⟨h1, ?_⟩
    unfold readTimeOf
    have h2 : 1 ≤ (jsWordCount content + 199) / 200 := by
      rw [Nat.one_le_div_iff (by norm_num)]
      omega
    rw [Nat.max_eq_right h2]
  · intro content hh hl
    unfold readTimeOf specReadTime jsWordCount specWordCount
    cases hn : stripTags content.data with
    | nil => decide
    | cons d rest =>
      rw [hn] at hh hl
      have hall := jsSplitWs_all_ne_nil (d :: rest) (by simp) hh hl
      have hfil : (jsSplitWs (d :: rest)).filter (fun s => !s.isEmpty)
          = jsSplitWs (d :: rest) := by
        apply List.filter_eq_self.mpr
        intro s hs
        simpa [List.isEmpty_iff] using hall s hs
      rw [hfil]
      have hpos : 1 ≤ (jsSplitWs (d :: rest)).length := by
        cases hq : jsSplitWs (d :: rest) with
        | nil => exact absurd hq (jsSplitWs_ne_nil _)
        | cons a t => simp
      have h2 : 1 ≤ ((jsSplitWs (d :: rest)).length + 199) / 200 := by
        rw [Nat.one_le_div_iff (by norm_num)]
        omega
      rw [Nat.max_eq_right h2]

/-- Witness for the amended C4 on a concrete content with no boundary
whitespace. -/
theorem C4_readTime_amended_witness :
    readTimeOf "hello world" = specReadTime "hello world" :=
  C4_readTime_amended.2.1 "hello world" (by decide) (by decide)

/-- C3 counterexample: a post created with the title `"!!!"` stores the
empty slug, and a later title update to `"Hello World!"` recomputes the
slug to `"hello-world"` — the slug is not stable under title edits when the
stored slug is the (falsy) empty string. -/
theorem C3_counterexample :
    (createPost exEmptyDB ⟨5, false⟩ { title := "!!!", content := "0123456789" } 1 0).map
        (fun r => (r.2.slug,
          (updatePost r.1 ⟨5, false⟩ 1 { title := some "Hello World!" } 7).map
            (fun db2 => (findBy Post.id db2.posts 1).map Post.slug)))
      = .ok (some "", .ok (some (some "hello-world"))) := by
  decide

/-- C3 (amended): the slug function lower-cases the title, strips
characters outside letters, digits and whitespace, collapses whitespace
runs to single hyphens and truncates to 50 characters ("Hello World!"
yields "hello-world"); it is assigned at creation from the (trimmed)
title, and any later update leaves it unchanged provided the stored slug
is a nonempty string.  (When the stored slug is the empty string — a title
with no alphanumeric or whitespace characters — the falsy-slug check makes
a later title edit recompute it, see the counterexample.) -/
theorem C3_slug_amended :
    slugOf "Hello World!" = "hello-world" ∧
    (∀ db a f newId now db' p, createPost db a f newId now = .ok (db', p) →
      p.slug = some (slugOf (jsTrim f.title))) ∧
    (∀ db a pid patch now db' p s, findBy Post.id db.posts pid = some p →
      p.slug = some s → ¬s = "" →
      updatePost db a pid patch now = .ok db' →
      ∃ p', findBy Post.id db'.posts pid = some p' ∧ p'.slug = some s) := by
  refine ⟨by decide, ?_, ?_⟩
  · intro db a f newId now db' p h
    unfold createPost at h
    split at h
    · simp at h
    · simp only [] at h
      split at h
      · simp only [Except.ok.injEq, Prod.mk.injEq] at h
        obtain ⟨-, hp⟩ := h
        rw [← hp, postHooks_slug]
        simp [strTruthy]
      · simp at h
  · intro db a pid patch now db' p s hf hslug hs h
    unfold updatePost at h
    obtain ⟨p0, hf0, h2⟩ := withPost_ok _ _ _ _ h
    rw [hf0] at hf
    have hp0 : p0 = p := Option.some.inj hf
    subst hp0
    split at h2
    · simp at h2
    · obtain ⟨hv, hdb1⟩ := savePost_ok _ _ _ _ _ h2
      subst hdb1
      have hkey : Post.id p0 = pid := (findBy_mem _ _ _ _ hf0).2
      refine ⟨postHooks (patchedPost p0 patch) (patchMods p0 patch) now, ?_, ?_⟩
      · show findBy Post.id
          (replaceBy Post.id db.posts (patchedPost p0 patch).id
            (postHooks (patchedPost p0 patch) (patchMods p0 patch) now)) pid = _
        have hpid : (patchedPost p0 patch).id = pid := by
          rw [show (patchedPost p0 patch).id = p0.id from rfl, hkey]
        rw [hpid]
        exact findBy_replaceBy_self Post.id db.posts pid _ p0
          (by rw [postHooks_id, show (patchedPost p0 patch).id = p0.id from rfl, hkey]) hf0
      · rw [postHooks_slug]
        have hps : (patchedPost p0 patch).slug = some s := by
          rw [show (patchedPost p0 patch).slug = p0.slug from rfl, hslug]
        rw [hps]
        simp [strTruthy, hs]

/-- Witness for the amended C3: retitling `exPost` (stored slug `"t"`)
leaves the slug `"t"`. -/
theorem C3_slug_amended_witness :
    ∃ p', findBy Post.id exDB2.posts 1 = some p' ∧ p'.slug = some "t" :=
  C3_slug_amended.2.2 exDB0 ⟨9, false⟩ 1 { title := some "New Title" } 7 exDB2 exPost "t"
    (by decide) (by decide) (by decide) (by decide)

theorem withPost_eq_some {β : Type} (db : DB) (pid : Nat) (k : Post → Except ApiErr β)
    (p : Post) (h : findBy Post.id db.posts pid = some p) : withPost db pid k = k p := by
  unfold withPost
  rw [h]

theorem withPost_eq_none {β : Type} (db : DB) (pid : Nat) (k : Post → Except ApiErr β)
    (h : findBy Post.id db.posts pid = none) : withPost db pid k = .error .notFound := by
  unfold withPost
  rw [h]

theorem withComment_eq_some {β : Type} (db : DB) (cid : Nat) (k : Comment → Except ApiErr β)
    (c : Comment) (h : findBy Comment.id db.comments cid = some c) :
    withComment db cid k = k c := by
  unfold withComment
  rw [h]

theorem withComment_eq_none {β : Type} (db : DB) (cid : Nat) (k : Comment → Except ApiErr β)
    (h : findBy Comment.id db.comments cid = none) : withComment db cid k = .error .notFound := by
  unfold withComment
  rw [h]

theorem except_map_error_iff {ε α β : Type} (f : α → β) (x : Except ε α) (e : ε) :
    x.map f = .error e ↔ x = .error e := by
  cases x <;> simp [Except.map]

theorem saveNewComment_not_invalidParent (db : DB) (c : Comment) (now : Nat) :
    ¬saveNewComment db c now = .error .invalidParent := by
  unfold saveNewComment
  split <;> simp

/-- C1 counterexample: in `exDB3` the comment 11 is itself a reply (its
`parentComment` is comment 10), yet creating a comment whose parent is 11
succeeds — the handler does not reject depth-2 replies with InvalidParent. -/
theorem C1_counterexample :
    (findBy Comment.id exDB3.comments 11).map Comment.parentComment = some (some 10) ∧
    (addComment exDB3 ⟨5, false⟩ 1 "hi" (some 11) 12 100).isOk = true ∧
    ¬addComment exDB3 ⟨5, false⟩ 1 "hi" (some 11) 12 100 = .error .invalidParent := by
  refine ⟨by decide, by decide, by decide⟩

/-- C1 (amended): for a comment-create request with a nonblank body, an
existing Published target post and a supplied parentCommentId, the request
fails with InvalidParent exactly when no comment with that id exists or the
parent's `post` differs from the target post.  The handler does not require
the parent to be top-level: a reply to a reply passes this check (see the
counterexample). -/
theorem C1_invalidParent_amended (db : DB) (a : Actor) (postId : Nat) (body : String)
    (parId : Nat) (newId now : Nat) (p : Post)
    (hbody : ¬jsTrim body = "")
    (hp : findBy Post.id db.posts postId = some p)
    (hpub : p.status = .published) :
    addComment db a postId body (some parId) newId now = .error .invalidParent ↔
      ∀ par, findBy Comment.id db.comments parId = some par → ¬par.post = postId := by
  unfold addComment
  rw [if_neg hbody, withPost_eq_some db postId _ p hp]
  simp only []
  rw [if_neg (not_not_intro hpub)]
  cases hpar : findBy Comment.id db.comments parId with
  | none =>
    have hpc : parentOkCheck db postId (some parId) = false := by
      show (match findBy Comment.id db.comments parId with
          | none => false
          | some par => decide (par.post = postId)) = false
      rw [hpar]
    rw [hpc, if_pos (show (!false) = true from rfl)]
    constructor
    · intro _ par2 hpar2
      exact absurd hpar2 (by simp)
    · intro _
      rfl
  | some par =>
    have hpc : parentOkCheck db postId (some parId) = decide (par.post = postId) := by
      show (match findBy Comment.id db.comments parId with
          | none => false
          | some par2 => decide (par2.post = postId)) = decide (par.post = postId)
      rw [hpar]
    rw [hpc]
    by_cases hpp : par.post = postId
    · rw [if_neg (show ¬(!decide (par.post = postId)) = true from by simp [hpp])]
      constructor
      · intro hcon
        rw [except_map_error_iff] at hcon
        exact absurd hcon (saveNewComment_not_invalidParent _ _ _)
      · intro hall
        exact absurd hpp (hall par rfl)
    · rw [if_pos (show (!decide (par.post = postId)) = true from by simp [hpp])]
      constructor
      · intro _ par2 hpar2
        rw [← Option.some.inj hpar2]
        exact hpp
      · intro _
        rfl

/-- Witness for the amended C1: on `exDB3`, parent 11 exists with matching
post, so the create does not fail with InvalidParent. -/
theorem C1_invalidParent_amended_witness :
    addComment exDB3 ⟨5, false⟩ 1 "hi" (some 11) 12 100 = .error .invalidParent ↔
      ∀ par, findBy Comment.id exDB3.comments 11 = some par → ¬par.post = 1 :=
  C1_invalidParent_amended exDB3 ⟨5, false⟩ 1 "hi" 11 12 100 { exPost with commentsCount := 2 }
    (by decide) (by decide) (by decide)

theorem replaceBy_replaceBy {α : Type} (f : α → Nat) (l : List α) (i : Nat) (x y : α)
    (hx : f x = i) : replaceBy f (replaceBy f l i x) i y = replaceBy f l i y := by
  unfold replaceBy
  rw [List.map_map]
  apply List.map_congr_left
  intro q _
  by_cases h : f q = i <;> simp [h, hx]

theorem replaceBy_self_of_nodup {α : Type} (f : α → Nat) (l : List α) (i : Nat) (y : α)
    (hnd : (l.map f).Nodup) (hf : findBy f l i = some y) : replaceBy f l i y = l := by
  induction l with
  | nil => rfl
  | cons a t ih =>
    rw [List.map_cons, List.nodup_cons] at hnd
    by_cases ha : f a = i
    · have hy : y = a := by
        unfold findBy at hf
        rw [List.find?_cons_of_pos _ (by simpa using ha)] at hf
        exact (Option.some.inj hf).symm
      have ht : replaceBy f t i y = t := by
        apply replaceBy_eq_self
        intro q hq hq2
        have hqa : f q = f a := by rw [hq2, ha]
        exact hnd.1 (by rw [← hqa]; exact List.mem_map_of_mem f hq)
      show (if f a = i then y else a) :: replaceBy f t i y = a :: t
      rw [if_pos ha, ht, hy]
    · have hf' : findBy f t i = some y := by
        unfold findBy at hf ⊢
        rwa [List.find?_cons_of_neg _ (by simpa using ha)] at hf
      show (if f a = i then y else a) :: replaceBy f t i y = a :: t
      rw [if_neg ha, ih hnd.2 hf']

theorem post_set_commentsCount_self (q : Post) (n : Nat) (h : q.commentsCount = n) :
    { q with commentsCount := n } = q := by
  cases q
  simp_all

theorem syncCommentsCount_eq_self (db : DB) (pid : Nat)
    (h : ∀ q ∈ db.posts, q.id = pid → q.commentsCount = countND db.comments pid) :
    syncCommentsCount db pid = db := by
  unfold syncCommentsCount
  cases db with
  | mk posts comments =>
    simp only [DB.mk.injEq, and_true]
    conv_rhs => rw [← List.map_id posts]
    apply List.map_congr_left
    intro q hq
    by_cases hqi : q.id = pid
    · rw [if_pos hqi]
      exact post_set_commentsCount_self q _ (h q hq hqi)
    · rw [if_neg hqi]
      rfl

theorem togglePostLike_eval (db : DB) (a : Actor) (pid now : Nat) (p : Post)
    (hf : findBy Post.id db.posts pid = some p) (hv : postValid p = true) :
    togglePostLike db a pid now =
      .ok ({ db with
          posts :=
            replaceBy Post.id db.posts p.id
              (postHooks { p with
                  likes :=
                    if p.likes.any (fun e => decide (e.user = a.id)) then
                      p.likes.filter (fun e => !(e.user = a.id : Bool))
                    else p.likes ++ [{ user := a.id, createdAt := now }] }
                { likes := true } now) },
        !(p.likes.any (fun e => decide (e.user = a.id))),
        (if p.likes.any (fun e => decide (e.user = a.id)) then
            p.likes.filter (fun e => !(e.user = a.id : Bool))
          else p.likes ++ [{ user := a.id, createdAt := now }]).length) := by
  unfold togglePostLike
  rw [withPost_eq_some db pid _ p hf]
  simp only []
  unfold savePost
  split <;> split
  any_goals rfl
  all_goals (rename_i hneg; exact absurd hv hneg)

theorem toggleCommentLike_eval (db : DB) (a : Actor) (cid now : Nat) (c : Comment)
    (hf : findBy Comment.id db.comments cid = some c) (hdel : c.isDeleted = false)
    (hv : commentValid c = true) :
    toggleCommentLike db a cid now =
      .ok (syncCommentsCount
          { db with
            comments :=
              replaceBy Comment.id db.comments c.id
                (commentHooks { c with
                    likes :=
                      if c.likes.any (fun e => decide (e.user = a.id)) then
                        c.likes.filter (fun e => !(e.user = a.id : Bool))
                      else c.likes ++ [{ user := a.id, createdAt := now }] }
                  { likes := true } false now) }
          (commentHooks { c with
              likes :=
                if c.likes.any (fun e => decide (e.user = a.id)) then
                  c.likes.filter (fun e => !(e.user = a.id : Bool))
                else c.likes ++ [{ user := a.id, createdAt := now }] }
            { likes := true } false now).post,
        !(c.likes.any (fun e => decide (e.user = a.id))),
        (if c.likes.any (fun e => decide (e.user = a.id)) then
            c.likes.filter (fun e => !(e.user = a.id : Bool))
          else c.likes ++ [{ user := a.id, createdAt := now }]).length) := by
  unfold toggleCommentLike
  rw [withComment_eq_some db cid _ c hf]
  simp only []
  rw [if_neg (by rw [hdel]; exact Bool.false_ne_true)]
  unfold saveComment
  split <;> split
  any_goals rfl
  all_goals (rename_i hneg; exact absurd hv hneg)

theorem post_set_likesCount_self (q : Post) (n : Nat) (h : q.likesCount = n) :
    { q with likesCount := n } = q := by
  cases q
  simp_all

theorem comment_set_likesCount_self (q : Comment) (n : Nat) (h : q.likesCount = n) :
    { q with likesCount := n } = q := by
  cases q
  simp_all

theorem toggle_toggle_post (db : DB) (a : Actor) (pid t1 t2 : Nat) (p : Post)
    (hf : findBy Post.id db.posts pid = some p)
    (hnd : (db.posts.map Post.id).Nodup)
    (hv : postValid p = true)
    (hlc : p.likesCount = p.likes.length)
    (hnotin : ∀ e ∈ p.likes, ¬e.user = a.id) :
    ∃ db1, togglePostLike db a pid t1 = .ok (db1, true, p.likes.length + 1) ∧
      togglePostLike db1 a pid t2 = .ok (db, false, p.likesCount) := by
  have hkey : Post.id p = pid := (findBy_mem _ _ _ _ hf).2
  have hany1 : p.likes.any (fun e => decide (e.user = a.id)) = false := by
    rw [List.any_eq_false]
    intro e he
    simpa using hnotin e he
  have h1 := togglePostLike_eval db a pid t1 p hf hv
  rw [hany1] at h1
  simp only [Bool.false_eq_true, if_false, Bool.not_false, List.length_append,
    List.length_cons, List.length_nil, Nat.zero_add] at h1
  refine ⟨_, h1, ?_⟩
  have hf1 : findBy Post.id
      (replaceBy Post.id db.posts p.id
        (postHooks { p with likes := p.likes ++ [{ user := a.id, createdAt := t1 }] }
          { likes := true } t1)) pid
      = some (postHooks { p with likes := p.likes ++ [{ user := a.id, createdAt := t1 }] }
          { likes := true } t1) := by
    rw [← hkey]
    exact findBy_replaceBy_self Post.id db.posts p.id _ p rfl (by rw [hkey]; exact hf)
  have hv1 : postValid (postHooks { p with likes := p.likes ++ [{ user := a.id, createdAt := t1 }] }
      { likes := true } t1) = true := hv
  rw [togglePostLike_eval _ a pid t2 _ hf1 hv1]
  have hany2 : (postHooks { p with likes := p.likes ++ [{ user := a.id, createdAt := t1 }] }
      { likes := true } t1).likes.any (fun e => decide (e.user = a.id)) = true := by
    simp
  rw [hany2]
  simp only [if_true, Bool.not_true]
  have hfilter : (postHooks { p with likes := p.likes ++ [{ user := a.id, createdAt := t1 }] }
      { likes := true } t1).likes.filter (fun e => !decide (e.user = a.id)) = p.likes := by
    rw [postHooks_likes]
    show (p.likes ++ [({ user := a.id, createdAt := t1 } : LikeEntry)]).filter
        (fun e => !decide (e.user = a.id))
      = p.likes
    rw [List.filter_append]
    have hself : p.likes.filter (fun e => !decide (e.user = a.id)) = p.likes :=
      List.filter_eq_self.mpr (fun e he => by simpa using hnotin e he)
    simp [hself]
  rw [hfilter]
  have hid1 : Post.id (postHooks { p with likes := p.likes ++ [{ user := a.id, createdAt := t1 }] }
      { likes := true } t1) = Post.id p := rfl
  rw [hid1]
  rw [replaceBy_replaceBy Post.id db.posts p.id
    (postHooks { p with likes := p.likes ++ [{ user := a.id, createdAt := t1 }] }
      { likes := true } t1) _ rfl]
  show Except.ok
      (({ db with
          posts :=
            replaceBy Post.id db.posts p.id
              ({ p with likesCount := p.likes.length } : Post) } : DB),
        false, p.likes.length)
    = Except.ok (db, false, p.likesCount)
  rw [post_set_likesCount_self p _ hlc,
    replaceBy_self_of_nodup Post.id db.posts p.id p hnd (by rw [hkey]; exact hf), hlc]

theorem toggle_toggle_comment (db : DB) (a : Actor) (cid t1 t2 : Nat) (c : Comment)
    (hf : findBy Comment.id db.comments cid = some c)
    (hndc : (db.comments.map Comment.id).Nodup)
    (hv : commentValid c = true)
    (hdel : c.isDeleted = false)
    (hlc : c.likesCount = c.likes.length)
    (hpp : ∀ q ∈ db.posts, q.id = c.post → q.commentsCount = countND db.comments c.post)
    (hnotin : ∀ e ∈ c.likes, ¬e.user = a.id) :
    ∃ db1, toggleCommentLike db a cid t1 = .ok (db1, true, c.likes.length + 1) ∧
      toggleCommentLike db1 a cid t2 = .ok (db, false, c.likesCount) := by
  have hkey : Comment.id c = cid := (findBy_mem _ _ _ _ hf).2
  have hany1 : c.likes.any (fun e => decide (e.user = a.id)) = false := by
    rw [List.any_eq_false]
    intro e he
    simpa using hnotin e he
  have h1 := toggleCommentLike_eval db a cid t1 c hf hdel hv
  rw [hany1] at h1
  simp only [Bool.false_eq_true, if_false, Bool.not_false, List.length_append,
    List.length_cons, List.length_nil, Nat.zero_add] at h1
  have hcnt1 : countND (replaceBy Comment.id db.comments c.id
      (commentHooks { c with likes := c.likes ++ [{ user := a.id, createdAt := t1 }] }
        { likes := true } false t1)) c.post
      = countND db.comments c.post := by
    have h := countND_replaceBy db.comments c.id c
      (commentHooks { c with likes := c.likes ++ [{ user := a.id, createdAt := t1 }] }
        { likes := true } false t1) c.post hndc (by rw [hkey]; exact hf)
    rw [show (commentHooks { c with likes := c.likes ++ [{ user := a.id, createdAt := t1 }] }
        { likes := true } false t1).post = c.post from rfl,
      show (commentHooks { c with likes := c.likes ++ [{ user := a.id, createdAt := t1 }] }
        { likes := true } false t1).isDeleted = c.isDeleted from rfl] at h
    omega
  have hsync1 : syncCommentsCount
      { db with
        comments :=
          replaceBy Comment.id db.comments c.id
            (commentHooks { c with likes := c.likes ++ [{ user := a.id, createdAt := t1 }] }
              { likes := true } false t1) }
      (commentHooks { c with likes := c.likes ++ [{ user := a.id, createdAt := t1 }] }
        { likes := true } false t1).post
      = { db with
          comments :=
            replaceBy Comment.id db.comments c.id
              (commentHooks { c with likes := c.likes ++ [{ user := a.id, createdAt := t1 }] }
                { likes := true } false t1) } := by
    apply syncCommentsCount_eq_self
    intro q hq hqi
    show q.commentsCount = countND (replaceBy Comment.id db.comments c.id
      (commentHooks { c with likes := c.likes ++ [{ user := a.id, createdAt := t1 }] }
        { likes := true } false t1)) c.post
    rw [hcnt1]
    exact hpp q hq hqi
  rw [hsync1] at h1
  refine ⟨_, h1, ?_⟩
  have hf1 : findBy Comment.id
      (replaceBy Comment.id db.comments c.id
        (commentHooks { c with likes := c.likes ++ [{ user := a.id, createdAt := t1 }] }
          { likes := true } false t1)) cid
      = some (commentHooks { c with likes := c.likes ++ [{ user := a.id, createdAt := t1 }] }
          { likes := true } false t1) := by
    rw [← hkey]
    exact findBy_replaceBy_self Comment.id db.comments c.id _ c rfl (by rw [hkey]; exact hf)
  have hdel1 : (commentHooks { c with likes := c.likes ++ [{ user := a.id, createdAt := t1 }] }
      { likes := true } false t1).isDeleted = false := hdel
  have hv1 : commentValid (commentHooks { c with likes := c.likes ++ [{ user := a.id, createdAt := t1 }] }
      { likes := true } false t1) = true := hv
  rw [toggleCommentLike_eval _ a cid t2 _ hf1 hdel1 hv1]
  have hany2 : (commentHooks { c with likes := c.likes ++ [{ user := a.id, createdAt := t1 }] }
      { likes := true } false t1).likes.any (fun e => decide (e.user = a.id)) = true := by
    simp
  rw [hany2]
  simp only [if_true, Bool.not_true]
  have hfilter : (commentHooks { c with likes := c.likes ++ [{ user := a.id, createdAt := t1 }] }
      { likes := true } false t1).likes.filter (fun e => !decide (e.user = a.id)) = c.likes := by
    rw [commentHooks_likes]
    show (c.likes ++ [({ user := a.id, createdAt := t1 } : LikeEntry)]).filter
        (fun e => !decide (e.user = a.id))
      = c.likes
    rw [List.filter_append]
    have hself : c.likes.filter (fun e => !decide (e.user = a.id)) = c.likes :=
      List.filter_eq_self.mpr (fun e he => by simpa using hnotin e he)
    simp [hself]
  rw [hfilter]
  have hid1 : Comment.id (commentHooks { c with likes := c.likes ++ [{ user := a.id, createdAt := t1 }] }
      { likes := true } false t1) = Comment.id c := rfl
  rw [hid1]
  rw [replaceBy_replaceBy Comment.id db.comments c.id
    (commentHooks { c with likes := c.likes ++ [{ user := a.id, createdAt := t1 }] }
      { likes := true } false t1) _ rfl]
  show Except.ok
      ((syncCommentsCount
        { db with
          comments :=
            replaceBy Comment.id db.comments c.id
              ({ c with likesCount := c.likes.length } : Comment) }
        c.post),
        false, c.likes.length)
    = Except.ok (db, false, c.likesCount)
  rw [comment_set_likesCount_self c _ hlc,
    replaceBy_self_of_nodup Comment.id db.comments c.id c hndc (by rw [hkey]; exact hf)]
  show Except.ok (syncCommentsCount db c.post, false, c.likes.length)
    = Except.ok (db, false, c.likesCount)
  rw [syncCommentsCount_eq_self db c.post hpp, hlc]

/-- C5 counterexample: actor 7 already has a like entry on the post, so
toggling twice (unlike, then like again) ends with a like entry for actor 7
still present — the claim's "no like entry for that actor remaining" fails
for an actor who had liked the entity before the double toggle. -/
theorem C5_counterexample :
    exPostLiked.likes.any (fun e => decide (e.user = 7)) = true ∧
    ((togglePostLike exDBL ⟨7, false⟩ 1 5).map (fun r =>
      (togglePostLike r.1 ⟨7, false⟩ 1 6).map (fun r2 =>
        (findBy Post.id r2.1.posts 1).map (fun p =>
          p.likes.any (fun e => decide (e.user = 7))))))
      = .ok (.ok (some true)) := by
  refine ⟨by decide, by decide⟩

/-- C5 (amended): toggling a like twice by the same actor returns the
entity (post or comment) to its original state provided the actor had no
like entry before and the stored counters are consistent: the first toggle
reports liked with count one higher, the second reports unliked with the
original likesCount, and the database returns exactly to its original
value (hence no like entry for that actor remains). -/
theorem C5_like_unlike_amended :
    (∀ db a pid t1 t2 p, findBy Post.id db.posts pid = some p →
      (db.posts.map Post.id).Nodup →
      postValid p = true →
      p.likesCount = p.likes.length →
      (∀ e ∈ p.likes, ¬e.user = a.id) →
      ∃ db1, togglePostLike db a pid t1 = .ok (db1, true, p.likes.length + 1) ∧
        togglePostLike db1 a pid t2 = .ok (db, false, p.likesCount)) ∧
    (∀ db a cid t1 t2 c, findBy Comment.id db.comments cid = some c →
      (db.comments.map Comment.id).Nodup →
      commentValid c = true →
      c.isDeleted = false →
      c.likesCount = c.likes.length →
      (∀ q ∈ db.posts, q.id = c.post → q.commentsCount = countND db.comments c.post) →
      (∀ e ∈ c.likes, ¬e.user = a.id) →
      ∃ db1, toggleCommentLike db a cid t1 = .ok (db1, true, c.likes.length + 1) ∧
        toggleCommentLike db1 a cid t2 = .ok (db, false, c.likesCount)) :=
  ⟨fun db a pid t1 t2 p hf hnd hv hlc hni =>
      toggle_toggle_post db a pid t1 t2 p hf hnd hv hlc hni,
    fun db a cid t1 t2 c hf hnd hv hdel hlc hpp hni =>
      toggle_toggle_comment db a cid t1 t2 c hf hnd hv hdel hlc hpp hni⟩

/-- Witness for the amended C5: double like-toggle by user 7 on `exDB0`
returns it to `exDB0`. -/
theorem C5_like_unlike_amended_witness :
    ∃ db1, togglePostLike exDB0 ⟨7, false⟩ 1 5 = .ok (db1, true, exPost.likes.length + 1) ∧
      togglePostLike db1 ⟨7, false⟩ 1 6 = .ok (exDB0, false, exPost.likesCount) :=
  C5_like_unlike_amended.1 exDB0 ⟨7, false⟩ 1 5 6 exPost
    (by decide) (by decide) (by decide) (by decide) (by decide)

theorem map_replaceBy_of_nodup {α β : Type} (f : α → Nat) (g : α → β) (l : List α) (i : Nat)
    (x y : α) (hnd : (l.map f).Nodup) (hf : findBy f l i = some y) (hg : g x = g y) :
    (replaceBy f l i x).map g = l.map g := by
  induction l with
  | nil => rfl
  | cons a t ih =>
    rw [List.map_cons, List.nodup_cons] at hnd
    by_cases ha : f a = i
    · have hy : y = a := by
        unfold findBy at hf
        rw [List.find?_cons_of_pos _ (by simpa using ha)] at hf
        exact (Option.some.inj hf).symm
      have ht : replaceBy f t i x = t := by
        apply replaceBy_eq_self
        intro q hq hq2
        have hqa : f q = f a := by rw [hq2, ha]
        exact hnd.1 (by rw [← hqa]; exact List.mem_map_of_mem f hq)
      show ((if f a = i then x else a) :: replaceBy f t i x).map g = g a :: t.map g
      rw [if_pos ha, ht, List.map_cons, hg, hy]
    · have hf' : findBy f t i = some y := by
        unfold findBy at hf ⊢
        rwa [List.find?_cons_of_neg _ (by simpa using ha)] at hf
      show ((if f a = i then x else a) :: replaceBy f t i x).map g = g a :: t.map g
      rw [if_neg ha, List.map_cons, ih hnd.2 hf']

theorem findBy_map {α : Type} (f : α → Nat) (g : α → α) (l : List α) (j : Nat)
    (hg : ∀ a, f (g a) = f a) :
    findBy f (l.map g) j = (findBy f l j).map g := by
  induction l with
  | nil => rfl
  | cons a t ih =>
    show findBy f (g a :: t.map g) j = (findBy f (a :: t) j).map g
    unfold findBy
    rw [List.find?_cons, List.find?_cons]
    by_cases ha : f a = j
    · rw [show (decide (f (g a) = j)) = true by simp [hg a, ha],
        show (decide (f a = j)) = true by simp [ha]]
      rfl
    · rw [show (decide (f (g a) = j)) = false by simp [hg a, ha],
        show (decide (f a = j)) = false by simp [ha]]
      exact ih

/-- C6: soft-deleting a non-deleted comment (by its author or an admin)
succeeds; the stored comment gets `isDeleted = true`, `deletedAt = now` and
the fixed placeholder body; no comment's `replies` sequence changes (so the
deleted id remains in its parent's replies); the deleted comment appears
neither among the listed top-level comments nor among the populated visible
replies of any comment; and the owning post's `commentsCount` decreases by
exactly one. -/
theorem C6_softDelete (db : DB) (a : Actor) (cid now : Nat) (c : Comment) (p : Post)
    (hwf : WF db)
    (hf : findBy Comment.id db.comments cid = some c)
    (hdel : c.isDeleted = false)
    (hauth : c.userId = a.id ∨ a.admin = true)
    (hp : findBy Post.id db.posts c.post = some p) :
    ∃ db', softDeleteComment db a cid now = .ok db' ∧
      (∃ c', findBy Comment.id db'.comments cid = some c' ∧
        c'.isDeleted = true ∧ c'.deletedAt = some now ∧
        c'.comment = deletedPlaceholder ∧ c'.replies = c.replies) ∧
      db'.comments.map Comment.replies = db.comments.map Comment.replies ∧
      (∀ pid2, ∀ q ∈ listTopLevel db' pid2, ¬q.id = cid) ∧
      (∀ par ∈ db'.comments, ∀ r ∈ visibleReplies db' par, ¬r.id = cid) ∧
      (∃ p', findBy Post.id db'.posts c.post = some p' ∧
        p.commentsCount = p'.commentsCount + 1) := by
  obtain ⟨hndp, hndc, hposts, hcs⟩ := hwf
  have hkey : Comment.id c = cid := (findBy_mem _ _ _ _ hf).2
  have hna : ¬(¬c.userId = a.id ∧ a.admin = false) := by
    rintro ⟨h1, h2⟩
    rcases hauth with h | h
    · exact h1 h
    · rw [h] at h2
      exact absurd h2 (by simp)
  have heval : softDeleteComment db a cid now = .ok (syncCommentsCount
      { db with
        comments :=
          replaceBy Comment.id db.comments c.id
            (commentHooks
              { c with isDeleted := true, deletedAt := some now, comment := deletedPlaceholder }
              { comment := decide (¬deletedPlaceholder = c.comment) } false now) }
      c.post) := by
    have heval0 : softDeleteComment db a cid now = .ok (syncCommentsCount
        { db with
          comments :=
            replaceBy Comment.id db.comments c.id
              (commentHooks
                { c with isDeleted := true, deletedAt := some now, comment := deletedPlaceholder }
                { comment := decide (¬deletedPlaceholder = c.comment) } false now) }
        (commentHooks
          { c with isDeleted := true, deletedAt := some now, comment := deletedPlaceholder }
          { comment := decide (¬deletedPlaceholder = c.comment) } false now).post) := by
      unfold softDeleteComment
      rw [withComment_eq_some db cid _ c hf]
      rw [if_neg hna]
      unfold saveComment
      rw [if_pos (show
        commentValid { c with isDeleted := true, deletedAt := some now, comment := deletedPlaceholder }
          = true from rfl)]
    rw [heval0, commentHooks_post]
  refine ⟨_, heval, ?_, ?_, ?_, ?_, ?_⟩
  · refine ⟨commentHooks
      { c with isDeleted := true, deletedAt := some now, comment := deletedPlaceholder }
      { comment := decide (¬deletedPlaceholder = c.comment) } false now, ?_, ?_, ?_, ?_, ?_⟩
    · show findBy Comment.id (replaceBy Comment.id db.comments c.id _) cid = _
      rw [← hkey]
      exact findBy_replaceBy_self Comment.id db.comments c.id _ c (by simp)
        (by rw [hkey]; exact hf)
    · simp
    · simp
    · simp
    · simp
  · show (replaceBy Comment.id db.comments c.id _).map Comment.replies
      = db.comments.map Comment.replies
    apply map_replaceBy_of_nodup Comment.id Comment.replies db.comments c.id _ c hndc
      (by rw [hkey]; exact hf)
    simp
  · intro pid2 q hq
    have hq2 := List.mem_of_mem_filter hq
    have hq3 := List.of_mem_filter hq
    simp only [decide_eq_true_eq] at hq3
    intro hqid
    rcases mem_replaceBy Comment.id db.comments c.id _ q hq2 with h1 | h1
    · rw [h1] at hq3
      simp at hq3
    · exact h1.2 (by rw [hqid, ← hkey])
  · intro par hpar r hr
    unfold visibleReplies at hr
    rcases List.mem_filterMap.mp hr with ⟨rid, -, hrid⟩
    cases hfind : findBy Comment.id (syncCommentsCount
        { db with
          comments :=
            replaceBy Comment.id db.comments c.id
              (commentHooks
                { c with isDeleted := true, deletedAt := some now, comment := deletedPlaceholder }
                { comment := decide (¬deletedPlaceholder = c.comment) } false now) }
        c.post).comments rid with
    | none => rw [hfind] at hrid; simp at hrid
    | some r0 =>
      rw [hfind] at hrid
      simp only [] at hrid
      by_cases hrd : r0.isDeleted = true
      · rw [if_pos hrd] at hrid
        simp at hrid
      · rw [if_neg hrd] at hrid
        simp only [Option.some.injEq] at hrid
        rw [← hrid]
        intro hrid2
        have hr0 := findBy_mem _ _ _ _ hfind
        rcases mem_replaceBy Comment.id db.comments c.id _ r0 hr0.1 with h1 | h1
        · rw [h1] at hrd
          simp at hrd
        · exact h1.2 (by rw [hrid2, ← hkey])
  · have hcnt : countND (replaceBy Comment.id db.comments c.id
        (commentHooks
          { c with isDeleted := true, deletedAt := some now, comment := deletedPlaceholder }
          { comment := decide (¬deletedPlaceholder = c.comment) } false now)) c.post + 1
        = countND db.comments c.post := by
      have h := countND_replaceBy db.comments c.id c
        (commentHooks
          { c with isDeleted := true, deletedAt := some now, comment := deletedPlaceholder }
          { comment := decide (¬deletedPlaceholder = c.comment) } false now)
        c.post hndc (by rw [hkey]; exact hf)
      rw [if_pos ⟨rfl, hdel⟩] at h
      rw [if_neg (by simp)] at h
      omega
    have hfp : findBy Post.id (syncCommentsCount
        { db with
          comments :=
            replaceBy Comment.id db.comments c.id
              (commentHooks
                { c with isDeleted := true, deletedAt := some now, comment := deletedPlaceholder }
                { comment := decide (¬deletedPlaceholder = c.comment) } false now) }
        c.post).posts c.post
        = some (if p.id = c.post then
            { p with commentsCount := countND (replaceBy Comment.id db.comments c.id
                (commentHooks
                  { c with isDeleted := true, deletedAt := some now, comment := deletedPlaceholder }
                  { comment := decide (¬deletedPlaceholder = c.comment) } false now)) c.post }
          else p) := by
      show findBy Post.id (db.posts.map _) c.post = _
      rw [findBy_map Post.id _ db.posts c.post (fun q => by split <;> rfl), hp]
      rfl
    rw [if_pos (findBy_mem _ _ _ _ hp).2] at hfp
    refine ⟨_, hfp, ?_⟩
    show p.commentsCount = countND (replaceBy Comment.id db.comments c.id
        (commentHooks
          { c with isDeleted := true, deletedAt := some now, comment := deletedPlaceholder }
          { comment := decide (¬deletedPlaceholder = c.comment) } false now)) c.post + 1
    rw [hcnt, (hposts p (findBy_mem _ _ _ _ hp).1).2, (findBy_mem _ _ _ _ hp).2]

/-- Witness for C6: soft-deleting reply 11 of `exDB3` by its author. -/
theorem C6_softDelete_witness :
    ∃ db', softDeleteComment exDB3 ⟨5, false⟩ 11 50 = .ok db' ∧
      (∃ c', findBy Comment.id db'.comments 11 = some c' ∧
        c'.isDeleted = true ∧ c'.deletedAt = some 50 ∧
        c'.comment = deletedPlaceholder ∧ c'.replies = exC11.replies) ∧
      db'.comments.map Comment.replies = exDB3.comments.map Comment.replies ∧
      (∀ pid2, ∀ q ∈ listTopLevel db' pid2, ¬q.id = 11) ∧
      (∀ par ∈ db'.comments, ∀ r ∈ visibleReplies db' par, ¬r.id = 11) ∧
      (∃ p', findBy Post.id db'.posts exC11.post = some p' ∧
        ({ exPost with commentsCount := 2 } : Post).commentsCount = p'.commentsCount + 1) :=
  C6_softDelete exDB3 ⟨5, false⟩ 11 50 exC11 { exPost with commentsCount := 2 }
    (by decide) (by decide) (by decide) (Or.inl (by decide)) (by decide)

theorem pubinv_syncCommentsCount (db : DB) (pid : Nat) (h : PubInv db) :
    PubInv (syncCommentsCount db pid) := by
  intro q hq
  rcases List.mem_map.mp hq with ⟨q0, hq0, hq0e⟩
  by_cases hqi : q0.id = pid
  · rw [if_pos hqi] at hq0e
    subst hq0e
    exact h q0 hq0
  · rw [if_neg hqi] at hq0e
    subst hq0e
    exact h q0 hq0

theorem pubinv_postHooks (db : DB) (p p1 : Post) (m : PostMods) (now : Nat)
    (hp : p ∈ db.posts) (hinv : PubInv db)
    (hst : p1.status = p.status ∨ m.status = true)
    (hpa : p1.publishedAt = p.publishedAt) :
    (postHooks p1 m now).status = .published → ¬(postHooks p1 m now).publishedAt = none := by
  intro hpub
  rw [postHooks_status] at hpub
  rw [postHooks_publishedAt]
  split
  · simp
  next hcond =>
    simp only [Bool.and_eq_true, decide_eq_true_eq, not_and, Bool.not_eq_true] at hcond
    rw [hpa]
    rcases hst with hs | hs
    · rw [hs] at hpub
      exact hinv p hp hpub
    · rw [← hpa]
      exact hcond ⟨hs, hpub⟩

theorem pubinv_step (db db' : DB) (hinv : PubInv db) (hstep : Step db db') : PubInv db' := by
  cases hstep with
  | postCreated actor f newId now _ p hfp hfc h =>
    unfold createPost at h
    split at h
    · simp at h
    · simp only [] at h
      split at h
      · simp only [Except.ok.injEq, Prod.mk.injEq] at h
        obtain ⟨hdb', -⟩ := h
        rw [← hdb']
        intro q hq
        rcases List.mem_append.mp hq with hq1 | hq1
        · exact hinv q hq1
        · rw [List.mem_singleton.mp hq1]
          intro hpub
          rw [postHooks_status] at hpub
          simp only [] at hpub
          rw [postHooks_publishedAt]
          simp [hpub]
      · simp at h
  | postUpdated actor pid patch now _ h =>
    unfold updatePost at h
    obtain ⟨p, hf, h2⟩ := withPost_ok _ _ _ _ h
    split at h2
    · simp at h2
    · obtain ⟨hv, hdb1⟩ := savePost_ok _ _ _ _ _ h2
      rw [hdb1]
      intro q hq
      rcases mem_replaceBy _ _ _ _ _ hq with h1 | h1
      · rw [h1]
        refine pubinv_postHooks db p _ _ now (findBy_mem _ _ _ _ hf).1 hinv ?_ ?_
        · by_cases hs : patch.status.getD p.status = p.status
          · left
            exact hs
          · right
            show decide (¬patch.status.getD p.status = p.status) = true
            simpa using hs
        · rfl
      · exact hinv q h1.1
  | postDeleted actor pid _ h =>
    unfold deletePost at h
    obtain ⟨p, hf, h2⟩ := withPost_ok _ _ _ _ h
    simp only [] at h2
    split at h2
    · simp at h2
    · rw [← Except.ok.inj h2]
      intro q hq
      exact hinv q (List.mem_of_mem_filter hq)
  | postLikeToggled actor pid now _ liked n h =>
    unfold togglePostLike at h
    obtain ⟨p, hf, h2⟩ := withPost_ok _ _ _ _ h
    obtain ⟨db1, heq, hv2⟩ := except_map_ok _ _ _ h2
    simp only [Prod.mk.injEq] at hv2
    obtain ⟨hdb', -, -⟩ := hv2
    obtain ⟨hv, hdb1⟩ := savePost_ok _ _ _ _ _ heq
    rw [hdb', hdb1]
    intro q hq
    rcases mem_replaceBy _ _ _ _ _ hq with h1 | h1
    · rw [h1]
      exact pubinv_postHooks db p _ _ now (findBy_mem _ _ _ _ hf).1 hinv (Or.inl rfl) rfl
    · exact hinv q h1.1
  | commentAdded actor postId body par newId now _ c hfr h =>
    unfold addComment at h
    split at h
    · simp at h
    · obtain ⟨p, hfp, h2⟩ := withPost_ok _ _ _ _ h
      simp only [] at h2
      split at h2
      · simp at h2
      · split at h2
        · simp at h2
        · obtain ⟨db1, heq, hv2⟩ := except_map_ok _ _ _ h2
          simp only [Prod.mk.injEq] at hv2
          obtain ⟨hdb', -⟩ := hv2
          obtain ⟨hv, hdb1⟩ := saveNewComment_ok _ _ _ _ heq
          rw [hdb', hdb1]
          cases par with
          | none => exact pubinv_syncCommentsCount _ _ hinv
          | some parId => exact pubinv_syncCommentsCount _ _ hinv
  | commentEdited actor cid body now _ h =>
    unfold editComment at h
    split at h
    · simp at h
    · obtain ⟨c, hfc, h2⟩ := withComment_ok _ _ _ _ h
      split at h2
      · simp at h2
      · split at h2
        · simp at h2
        · obtain ⟨hv, hdb1⟩ := saveComment_ok _ _ _ _ _ h2
          rw [hdb1]
          exact pubinv_syncCommentsCount _ _ hinv
  | commentSoftDeleted actor cid now _ h =>
    unfold softDeleteComment at h
    obtain ⟨c, hfc, h2⟩ := withComment_ok _ _ _ _ h
    split at h2
    · simp at h2
    · obtain ⟨hv, hdb1⟩ := saveComment_ok _ _ _ _ _ h2
      rw [hdb1]
      exact pubinv_syncCommentsCount _ _ hinv
  | commentLikeToggled actor cid now _ liked n h =>
    unfold toggleCommentLike at h
    obtain ⟨c, hfc, h2⟩ := withComment_ok _ _ _ _ h
    split at h2
    · simp at h2
    · obtain ⟨db1, heq, hv2⟩ := except_map_ok _ _ _ h2
      simp only [Prod.mk.injEq] at hv2
      obtain ⟨hdb', -⟩ := hv2
      obtain ⟨hv, hdb1⟩ := saveComment_ok _ _ _ _ _ heq
      rw [hdb', hdb1]
      exact pubinv_syncCommentsCount _ _ hinv

/-- C7: `publishedAt` is assigned exactly once.  (1) Creation stamps it with
the current time exactly when the effective status is Published, and leaves it
unset otherwise.  (2) Once set, it survives every later successful update
unchanged, whatever the patch.  (3) While unset, the first update that moves
the status to Published stamps it with that save's time.  (4) In particular a
Published → Archived → Published round trip of two updates preserves the
original date.  (5) The invariant "published posts carry a date" is preserved
by every state-changing handler. -/
theorem C7_publishedAt :
    (∀ (db : DB) (actor : Actor) (f : NewPostFields) (newId now : Nat) (db' : DB) (p : Post),
      createPost db actor f newId now = .ok (db', p) →
      p.publishedAt = (if f.status.getD Status.draft = Status.published then some now else none)) ∧
    (∀ (db : DB) (actor : Actor) (pid : Nat) (patch : PostPatch) (now : Nat) (db' : DB)
        (p : Post) (t : Nat),
      findBy Post.id db.posts pid = some p → p.publishedAt = some t →
      updatePost db actor pid patch now = .ok db' →
      ∃ p', findBy Post.id db'.posts pid = some p' ∧ p'.publishedAt = some t) ∧
    (∀ (db : DB) (actor : Actor) (pid : Nat) (patch : PostPatch) (now : Nat) (db' : DB) (p : Post),
      findBy Post.id db.posts pid = some p → p.publishedAt = none →
      patch.status = some Status.published → ¬p.status = Status.published →
      updatePost db actor pid patch now = .ok db' →
      ∃ p', findBy Post.id db'.posts pid = some p' ∧ p'.publishedAt = some now) ∧
    (∀ (db db1 db2 : DB) (actor1 actor2 : Actor) (pid : Nat) (patch1 patch2 : PostPatch)
        (now1 now2 : Nat) (p : Post) (t : Nat),
      findBy Post.id db.posts pid = some p → p.publishedAt = some t →
      patch1.status = some Status.archived → patch2.status = some Status.published →
      updatePost db actor1 pid patch1 now1 = .ok db1 →
      updatePost db1 actor2 pid patch2 now2 = .ok db2 →
      ∃ p', findBy Post.id db2.posts pid = some p' ∧ p'.publishedAt = some t) ∧
    (∀ db db', PubInv db → Step db db' → PubInv db') := by
  have stable : ∀ (db : DB) (actor : Actor) (pid : Nat) (patch : PostPatch) (now : Nat) (db' : DB)
      (p : Post) (t : Nat),
      findBy Post.id db.posts pid = some p → p.publishedAt = some t →
      updatePost db actor pid patch now = .ok db' →
      ∃ p', findBy Post.id db'.posts pid = some p' ∧ p'.publishedAt = some t := by
    intro db actor pid patch now db' p t hf hpa h
    unfold updatePost at h
    obtain ⟨p0, hf0, h2⟩ := withPost_ok _ _ _ _ h
    rw [hf] at hf0
    obtain rfl := Option.some.inj hf0
    split at h2
    · simp at h2
    · obtain ⟨hv, hdb1⟩ := savePost_ok _ _ _ _ _ h2
      have hid : (patchedPost p patch).id = pid := (findBy_mem _ _ _ _ hf).2
      have hx : (postHooks (patchedPost p patch) (patchMods p patch) now).id = pid := by
        rw [postHooks_id]
        exact hid
      refine ⟨postHooks (patchedPost p patch) (patchMods p patch) now, ?_, ?_⟩
      · rw [hdb1]
        show findBy Post.id (replaceBy Post.id db.posts (patchedPost p patch).id
            (postHooks (patchedPost p patch) (patchMods p patch) now)) pid = _
        rw [hid]
        exact findBy_replaceBy_self _ _ _ _ _ hx hf
      · rw [postHooks_publishedAt]
        have hpe : (patchedPost p patch).publishedAt = some t := hpa
        simp [hpe]
  refine ⟨?_, stable, ?_, ?_, fun db db' hinv hstep => pubinv_step db db' hinv hstep⟩
  · intro db actor f newId now db' p h
    unfold createPost at h
    split at h
    · simp at h
    · simp only [] at h
      split at h
      · simp only [Except.ok.injEq, Prod.mk.injEq] at h
        obtain ⟨-, hp⟩ := h
        rw [← hp, postHooks_publishedAt]
        by_cases hs : f.status.getD Status.draft = Status.published
        · simp [hs]
        · simp [hs]
      · simp at h
  · intro db actor pid patch now db' p hf hpa hps hns h
    unfold updatePost at h
    obtain ⟨p0, hf0, h2⟩ := withPost_ok _ _ _ _ h
    rw [hf] at hf0
    obtain rfl := Option.some.inj hf0
    split at h2
    · simp at h2
    · obtain ⟨hv, hdb1⟩ := savePost_ok _ _ _ _ _ h2
      have hid : (patchedPost p patch).id = pid := (findBy_mem _ _ _ _ hf).2
      have hx : (postHooks (patchedPost p patch) (patchMods p patch) now).id = pid := by
        rw [postHooks_id]
        exact hid
      refine ⟨postHooks (patchedPost p patch) (patchMods p patch) now, ?_, ?_⟩
      · rw [hdb1]
        show findBy Post.id (replaceBy Post.id db.posts (patchedPost p patch).id
            (postHooks (patchedPost p patch) (patchMods p patch) now)) pid = _
        rw [hid]
        exact findBy_replaceBy_self _ _ _ _ _ hx hf
      · rw [postHooks_publishedAt]
        have hst : (patchMods p patch).status = true := by
          simp only [patchMods, hps, Option.getD_some, decide_eq_true_eq]
          exact fun hc => hns hc.symm
        have hsts : (patchedPost p patch).status = Status.published := by
          show patch.status.getD p.status = Status.published
          rw [hps]
          rfl
        have hpe : (patchedPost p patch).publishedAt = none := hpa
        simp [hst, hsts, hpe]
  · intro db db1 db2 actor1 actor2 pid patch1 patch2 now1 now2 p t hf hpa h1s h2s h1 h2
    obtain ⟨p1, hf1, hpa1⟩ := stable db actor1 pid patch1 now1 db1 p t hf hpa h1
    exact stable db1 actor2 pid patch2 now2 db2 p1 t hf1 hpa1 h2

/-- Witness for C7 at a concrete input: the stored date `some 3` of post 1
survives the retitling update from `exDB0` to `exDB2`. -/
theorem C7_publishedAt_witness :
    ∃ p', findBy Post.id exDB2.posts 1 = some p' ∧ p'.publishedAt = some 3 :=
  C7_publishedAt.2.1 exDB0 ⟨9, false⟩ 1 { title := some "New Title" } 7 exDB2 exPost 3
    (by decide) (by decide) (by decide)

/-- C8: a successful post delete by the author or an admin removes exactly the
comments referencing the post and then the post itself; afterwards every such
comment id is gone, so a comment handler hitting one of those ids fails with
`notFound`, and the post id no longer resolves. -/
theorem C8_cascadeDelete (db : DB) (actor : Actor) (pid : Nat) (p : Post)
    (hnd : (db.comments.map Comment.id).Nodup)
    (hf : findBy Post.id db.posts pid = some p)
    (hauth : p.author = actor.id ∨ actor.admin = true) :
    ∃ db', deletePost db actor pid = .ok db' ∧
      db'.comments = db.comments.filter (fun c => !(c.post = pid : Bool)) ∧
      db'.posts = db.posts.filter (fun q => !(q.id = pid : Bool)) ∧
      (∀ c ∈ db.comments, c.post = pid →
        findBy Comment.id db'.comments c.id = none ∧
        (∀ (now : Nat), softDeleteComment db' actor c.id now = .error .notFound)) ∧
      findBy Post.id db'.posts pid = none := by
  have hcond : ¬(¬p.author = actor.id ∧ actor.admin = false) := by
    intro hc
    rcases hauth with h1 | h1
    · exact hc.1 h1
    · rw [h1] at hc
      exact absurd hc.2 (by simp)
  have hdel : deletePost db actor pid =
      .ok { posts := db.posts.filter (fun q => !(q.id = pid : Bool))
            comments := db.comments.filter (fun c => !(c.post = pid : Bool)) } := by
    unfold deletePost
    rw [withPost_eq_some _ _ _ _ hf, if_neg hcond]
  refine ⟨_, hdel, rfl, rfl, ?_, ?_⟩
  · intro c hc hcp
    have hnone : findBy Comment.id
        (db.comments.filter (fun x => !(x.post = pid : Bool))) c.id = none := by
      unfold findBy
      rw [List.find?_eq_none]
      intro x hx hbeq
      have hxid : x.id = c.id := by simpa using hbeq
      rw [List.mem_filter] at hx
      have hxc : x = c := List.inj_on_of_nodup_map hnd hx.1 hc hxid
      rw [hxc, hcp] at hx
      simp at hx
    refine ⟨hnone, fun now => ?_⟩
    unfold softDeleteComment
    exact withComment_eq_none _ _ _ hnone
  · unfold findBy
    rw [List.find?_eq_none]
    intro x hx hbeq
    have hxid : x.id = pid := by simpa using hbeq
    rw [List.mem_filter] at hx
    rw [hxid] at hx
    simp at hx

/-- Witness for C8 at a concrete input: deleting post 1 of `exDB3` (author 9)
wipes its two comments and the post. -/
theorem C8_cascadeDelete_witness :
    ∃ db', deletePost exDB3 ⟨9, false⟩ 1 = .ok db' ∧
      db'.comments = exDB3.comments.filter (fun c => !(c.post = 1 : Bool)) ∧
      db'.posts = exDB3.posts.filter (fun q => !(q.id = 1 : Bool)) ∧
      (∀ c ∈ exDB3.comments, c.post = 1 →
        findBy Comment.id db'.comments c.id = none ∧
        (∀ (now : Nat), softDeleteComment db' ⟨9, false⟩ c.id now = .error .notFound)) ∧
      findBy Post.id db'.posts 1 = none :=
  C8_cascadeDelete exDB3 ⟨9, false⟩ 1 { exPost with commentsCount := 2 } (by decide) (by decide)
    (Or.inl (by decide))

/-- C9: for a comment-create request with a nonblank body, a missing target
post yields `notFound` and a found post whose status is not Published yields
`invalidState` (in particular a Draft post); after a successful update that
moves the post's status to Published, adding a top-level comment with a valid
body to the same post id succeeds. -/
theorem C9_commentChecks :
    (∀ (db : DB) (actor : Actor) (postId : Nat) (body : String) (par : Option Nat)
        (newId now : Nat),
      ¬jsTrim body = "" → findBy Post.id db.posts postId = none →
      addComment db actor postId body par newId now = .error .notFound) ∧
    (∀ (db : DB) (actor : Actor) (postId : Nat) (body : String) (par : Option Nat)
        (newId now : Nat) (p : Post),
      ¬jsTrim body = "" → findBy Post.id db.posts postId = some p →
      ¬p.status = Status.published →
      addComment db actor postId body par newId now = .error .invalidState) ∧
    (∀ (db : DB) (actor : Actor) (postId : Nat) (body : String) (par : Option Nat)
        (newId now : Nat) (p : Post),
      ¬jsTrim body = "" → findBy Post.id db.posts postId = some p →
      p.status = Status.draft →
      addComment db actor postId body par newId now = .error .invalidState) ∧
    (∀ (db : DB) (actor pactor : Actor) (postId : Nat) (body : String) (newId now unow : Nat)
        (patch : PostPatch) (db' : DB),
      ¬jsTrim body = "" → (jsTrim body).length ≤ 1000 →
      patch.status = some Status.published →
      updatePost db pactor postId patch unow = .ok db' →
      (addComment db' actor postId body none newId now).isOk = true) := by
  have notPub : ∀ (db : DB) (actor : Actor) (postId : Nat) (body : String) (par : Option Nat)
      (newId now : Nat) (p : Post),
      ¬jsTrim body = "" → findBy Post.id db.posts postId = some p →
      ¬p.status = Status.published →
      addComment db actor postId body par newId now = .error .invalidState := by
    intro db actor postId body par newId now p hb hf hns
    unfold addComment
    rw [if_neg hb, withPost_eq_some _ _ _ _ hf, if_pos hns]
  refine ⟨?_, notPub, ?_, ?_⟩
  · intro db actor postId body par newId now hb hfn
    unfold addComment
    rw [if_neg hb, withPost_eq_none _ _ _ hfn]
  · intro db actor postId body par newId now p hb hf hd
    refine notPub db actor postId body par newId now p hb hf ?_
    rw [hd]
    decide
  · intro db actor pactor postId body newId now unow patch db' hb hlen hps hu
    unfold updatePost at hu
    obtain ⟨p, hfp, h2⟩ := withPost_ok _ _ _ _ hu
    split at h2
    · simp at h2
    · obtain ⟨hv, hdb1⟩ := savePost_ok _ _ _ _ _ h2
      have hid : (patchedPost p patch).id = postId := (findBy_mem _ _ _ _ hfp).2
      have hx : (postHooks (patchedPost p patch) (patchMods p patch) unow).id = postId := by
        rw [postHooks_id]
        exact hid
      have hf' : findBy Post.id db'.posts postId =
          some (postHooks (patchedPost p patch) (patchMods p patch) unow) := by
        rw [hdb1]
        show findBy Post.id (replaceBy Post.id db.posts (patchedPost p patch).id
            (postHooks (patchedPost p patch) (patchMods p patch) unow)) postId = _
        rw [hid]
        exact findBy_replaceBy_self _ _ _ _ _ hx hfp
      have hst : (postHooks (patchedPost p patch) (patchMods p patch) unow).status =
          Status.published := by
        rw [postHooks_status]
        show patch.status.getD p.status = Status.published
        rw [hps]
        rfl
      unfold addComment
      rw [if_neg hb, withPost_eq_some _ _ _ _ hf',
        if_neg (fun hc => hc hst), if_neg (by simp [parentOkCheck])]
      simp only [saveNewComment]
      split
      · rfl
      · next hcv =>
        exfalso
        simp only [commentValid] at hcv
        simp [hb, hlen] at hcv

/-- Witness for C9 at a concrete input: post 1 of `exDB4` is a Draft; after
the status update producing `exDB5`, adding comment 20 succeeds. -/
theorem C9_commentChecks_witness :
    (addComment exDB5 ⟨7, false⟩ 1 "nice" none 20 6).isOk = true :=
  C9_commentChecks.2.2.2 exDB4 ⟨7, false⟩ ⟨9, false⟩ 1 "nice" 20 6 4
    { status := some Status.published } exDB5 (by decide) (by decide) (by decide) (by decide)

/-- C10 counterexample: soft-deleting comment 12, whose body already equals
the placeholder string, succeeds and marks it deleted, but `isEdited` stays
`false` and `editedAt` stays unset — the body assignment is not a
modification when the stored value is already the placeholder, so the claim's
"always reported as edited" fails on this input. -/
theorem C10_counterexample :
    (softDeleteComment exDBE ⟨5, false⟩ 12 8).map
        (fun db' => (findBy Comment.id db'.comments 12).map
          (fun c => (c.isDeleted, c.isEdited, c.editedAt))) =
      .ok (some (true, false, none)) := by
  decide

/-- C10 (amended): soft-deleting a comment whose stored body differs from the
placeholder marks it deleted and also sets `isEdited = true` and `editedAt`
to the deletion time, because the handler's body replacement is a
modification and the pre-save hook flags any body modification on an
existing comment as an edit. -/
theorem C10_softDeleteEdited (db : DB) (a : Actor) (cid now : Nat) (c : Comment)
    (hf : findBy Comment.id db.comments cid = some c)
    (hnp : ¬c.comment = deletedPlaceholder)
    (hauth : c.userId = a.id ∨ a.admin = true) :
    ∃ db', softDeleteComment db a cid now = .ok db' ∧
      ∃ c', findBy Comment.id db'.comments cid = some c' ∧
        c'.isDeleted = true ∧ c'.isEdited = true ∧ c'.editedAt = some now := by
  have hkey : Comment.id c = cid := (findBy_mem _ _ _ _ hf).2
  have hna : ¬(¬c.userId = a.id ∧ a.admin = false) := by
    rintro ⟨h1, h2⟩
    rcases hauth with h | h
    · exact h1 h
    · rw [h] at h2
      exact absurd h2 (by simp)
  have hm : decide (¬deletedPlaceholder = c.comment) = true := by
    simp only [decide_eq_true_eq]
    exact fun hc => hnp hc.symm
  have heval : softDeleteComment db a cid now = .ok (syncCommentsCount
      { db with
        comments :=
          replaceBy Comment.id db.comments c.id
            (commentHooks
              { c with isDeleted := true, deletedAt := some now, comment := deletedPlaceholder }
              { comment := decide (¬deletedPlaceholder = c.comment) } false now) }
      c.post) := by
    have heval0 : softDeleteComment db a cid now = .ok (syncCommentsCount
        { db with
          comments :=
            replaceBy Comment.id db.comments c.id
              (commentHooks
                { c with isDeleted := true, deletedAt := some now, comment := deletedPlaceholder }
                { comment := decide (¬deletedPlaceholder = c.comment) } false now) }
        (commentHooks
          { c with isDeleted := true, deletedAt := some now, comment := deletedPlaceholder }
          { comment := decide (¬deletedPlaceholder = c.comment) } false now).post) := by
      unfold softDeleteComment
      rw [withComment_eq_some db cid _ c hf]
      rw [if_neg hna]
      unfold saveComment
      rw [if_pos (show
        commentValid { c with isDeleted := true, deletedAt := some now, comment := deletedPlaceholder }
          = true from rfl)]
    rw [heval0, commentHooks_post]
  refine ⟨_, heval, commentHooks
      { c with isDeleted := true, deletedAt := some now, comment := deletedPlaceholder }
      { comment := decide (¬deletedPlaceholder = c.comment) } false now, ?_, ?_, ?_, ?_⟩
  · show findBy Comment.id (replaceBy Comment.id db.comments c.id _) cid = _
    rw [← hkey]
    exact findBy_replaceBy_self Comment.id db.comments c.id _ c (by simp)
      (by rw [hkey]; exact hf)
  · simp
  · rw [commentHooks_isEdited]
    simp only []
    rw [hm]
    rfl
  · rw [commentHooks_editedAt]
    simp only []
    rw [hm]
    rfl

/-- Witness for C10 at a concrete input: soft-deleting comment 10 of `exDB3`
(body `"top"`) marks it deleted and edited at time 9. -/
theorem C10_softDeleteEdited_witness :
    ∃ db', softDeleteComment exDB3 ⟨5, false⟩ 10 9 = .ok db' ∧
      ∃ c', findBy Comment.id db'.comments 10 = some c' ∧
        c'.isDeleted = true ∧ c'.isEdited = true ∧ c'.editedAt = some 9 :=
  C10_softDeleteEdited exDB3 ⟨5, false⟩ 10 9 exC10 (by decide) (by decide) (Or.inl (by decide))

end Blogify
